import Mathlib

/-!
GeminiWatermarkRemove: the coordinating script `script.js`.

A shallow embedding of the batch-processing page script: the mask store
(`loadMask`), the logo compositor (`applyCustomLogo`), the per-image session
(`ImageProcessor`) and the worker message handler installed by `init`.

Conventions of the embedding.

* JavaScript numbers that hold fractions (`alphas`, `alphaGain`, the logo
  opacity and scale, the scaled logo size and position) are rationals: the
  arithmetic of the script is read as exact arithmetic, binary rounding of
  doubles and of `Float32Array` storage is not modelled. A decoded image has
  positive width and height; the statements that depend on a quotient by a side
  of the logo assume it, so that no division by zero is involved.
* Mutable objects are records; an `ImageProcessor` carries a `ref` that stands
  for its object identity, so that closures (`setTimeout` callbacks) and
  `p !== this` can be expressed.
* The event loop is a step function over explicit events; messages posted to
  the worker, alerts, console lines and exported canvases are logged in the
  state.
* A canvas bitmap is tracked symbolically: the bytes last written over the whole
  frame and the logo draws composited over them since.
-/

namespace GeminiWatermark

/-! ## Data model -/

/-- Values of the size selector of a card, `config.forceMode`. -/
inductive ForceMode where
  | auto
  | small
  | large
  deriving DecidableEq, Repr

/-- Keys of `STATE.masks`. -/
inductive MaskType where
  | small
  | large
  deriving DecidableEq, Repr

/-- A decoded `HTMLImageElement`: its size and the RGBA bytes that
`getImageData` returns once the image is drawn at the origin of a canvas of the
same size (row-major, four bytes per pixel). -/
structure Image where
  width : Nat
  height : Nat
  data : List Nat
  deriving DecidableEq, Repr

/-- An `ImageData` buffer exchanged with the worker. -/
structure ImageData where
  width : Nat
  height : Nat
  data : List Nat
  deriving DecidableEq, Repr

/-- An entry of `STATE.masks`: `{ width, height, alphas }`. -/
structure OpacityMask where
  width : Nat
  height : Nat
  alphas : List ℚ
  deriving DecidableEq, Repr

/-- The object `STATE.masks`. -/
structure Masks where
  small : Option OpacityMask
  large : Option OpacityMask
  deriving DecidableEq, Repr

/-- The object `STATE.customLogo`. -/
structure CustomLogo where
  image : Option Image
  opacity : ℚ
  scale : ℚ
  deriving DecidableEq, Repr

/-- The object `this.config` of an `ImageProcessor`. -/
structure Config where
  forceMode : ForceMode
  alphaGain : ℚ
  deriving DecidableEq, Repr

/-- One call `ctx.drawImage(logo, posX, posY, scaledWidth, scaledHeight)` made
with `ctx.globalAlpha = globalAlpha`. -/
structure LogoDraw where
  logo : Image
  globalAlpha : ℚ
  posX : ℚ
  posY : ℚ
  scaledWidth : ℚ
  scaledHeight : ℚ
  deriving DecidableEq, Repr

/-- A canvas bitmap, or a snapshot of one taken by `getImageData`: its size, the
bytes last written over it (`drawImage(img, 0, 0)` or `putImageData`) and the
logo draws composited over them since, oldest first. -/
structure Bitmap where
  width : Nat
  height : Nat
  base : List Nat
  painted : List LogoDraw
  deriving DecidableEq, Repr

/-- The inline `style.display` of the loading overlay of a card: never assigned
(the stylesheet decides), `flex`, or `none`. -/
inductive Display where
  | stylesheet
  | flex
  | hidden
  deriving DecidableEq, Repr

/-- An `ImageProcessor` instance. `ref` is the identity of the object, `id` the
random token drawn by the constructor; `this.state` and the parts of
`this.elements` that the script reads back are flattened into fields. -/
structure ImageProcessor where
  ref : Nat
  id : Nat
  config : Config
  originalImage : Option Image
  processedImageData : Option Bitmap
  canvas : Bitmap
  loadingDisplay : Display
  downloadDisabled : Bool
  deriving DecidableEq, Repr

/-- Messages the script posts to the worker. -/
inductive WorkerRequest where
  | initMasks (payload : Masks)
  | processImage (imageData : ImageData) (config : Config) (id : Nat)
  deriving DecidableEq, Repr

/-- Messages the worker sends back, as `onmessage` destructures them; `other` is
any message whose `type` is neither `PROCESS_COMPLETE` nor `PROCESS_ERROR`. -/
inductive WorkerResponse where
  | processComplete (id : Nat) (imageData : ImageData)
  | processError (id : Nat) (payload : String)
  | other
  deriving DecidableEq, Repr

/-- Calls of `alert`. -/
inductive Alert where
  | loadAssetsError
  | processingError (payload : String)
  deriving DecidableEq, Repr

/-- Lines written with `console.log` and `console.error`. -/
inductive ConsoleLine where
  | masksLoaded
  | failedToLoadMasks
  | workerError (payload : String)
  deriving DecidableEq, Repr

/-- State of a promise returned by `loadMask`. -/
inductive PromiseState where
  | pending
  | fulfilled
  | rejected
  deriving DecidableEq, Repr

/-- An entry of the `FileList` given to `handleFiles`: whether its MIME type
starts with `image/`, and the token `Math.random` yields for its processor. -/
structure FileEntry where
  isImage : Bool
  randomId : Nat
  deriving DecidableEq, Repr

/-- The global `STATE` and the environment the script acts on.

* `masks`, `processors`, `customLogo` are the fields of `STATE`;
* `detached` holds the processors removed from `STATE.processors` by `destroy`,
  which pending callbacks still reference;
* `timers` is the queue of pending `setTimeout(…, 50)` callbacks of
  `processAndRender`, each identified by the processor it closes over;
* `posted` logs `STATE.worker.postMessage`, `alerts` logs `alert`, `console`
  logs the console, `exported` logs the bitmaps handed to `toBlob`;
* `smallLoad`, `largeLoad` are the two promises awaited by `init` and
  `initSettled` tells whether `Promise.all` has settled. -/
structure AppState where
  masks : Masks
  processors : List ImageProcessor
  customLogo : CustomLogo
  detached : List ImageProcessor
  nextRef : Nat
  timers : List Nat
  posted : List WorkerRequest
  alerts : List Alert
  console : List ConsoleLine
  smallLoad : PromiseState
  largeLoad : PromiseState
  initSettled : Bool
  exported : List (Nat × Bitmap)
  deriving DecidableEq, Repr

/-- Events of the page: everything that can run a handler of the script.

* `maskSettled type outcome`: the template image of `loadMask(url, type)` fires
  `onload` (`some img`) or `onerror` (`none`);
* `handleFiles files`: files are dropped or chosen;
* `imageLoaded ref img`: the image read by `loadImage` of processor `ref` is
  decoded;
* `timeout`: the oldest pending timer of `processAndRender` fires (all have the
  same delay, so they fire in the order they were armed);
* `sizeSelectChange`, `alphaInput`, `removeClick`, `startCompare`, `endCompare`:
  the controls of the card of a live processor;
* `downloadClick ref`: `download()` runs on processor `ref`, from its button or
  from a timer of the Download All button;
* `logoLoaded`, `logoOpacityInput`, `logoScaleInput`, `clearLogo`: the logo
  controls;
* `workerMessage msg`: the worker sends `msg`. -/
inductive Event where
  | maskSettled (type : MaskType) (outcome : Option Image)
  | handleFiles (files : List FileEntry)
  | imageLoaded (ref : Nat) (img : Image)
  | timeout
  | sizeSelectChange (ref : Nat) (value : ForceMode)
  | alphaInput (ref : Nat) (val : ℚ)
  | downloadClick (ref : Nat)
  | removeClick (ref : Nat)
  | startCompare (ref : Nat)
  | endCompare (ref : Nat)
  | logoLoaded (img : Image)
  | logoOpacityInput (value : Int)
  | logoScaleInput (value : Int)
  | clearLogo
  | workerMessage (msg : WorkerResponse)
  deriving DecidableEq, Repr

/-! ## Helpers for mutable objects -/

/-- Mutation of the first element that satisfies `pred`: what
`find(pred)` followed by an assignment to the found object does to the array. -/
def updateFirst {α : Type} (pred : α → Bool) (f : α → α) : List α → List α
  | [] => []
  | a :: as => if pred a then f a :: as else a :: updateFirst pred f as

/-- Assignment `STATE.masks[type] = mask`. -/
def Masks.set (m : Masks) (type : MaskType) (mask : OpacityMask) : Masks :=
  match type with
  | .small => { m with small := some mask }
  | .large => { m with large := some mask }

/-- The processor object with identity `ref`, live or detached. -/
def AppState.object? (st : AppState) (ref : Nat) : Option ImageProcessor :=
  (st.processors ++ st.detached).find? (fun p => p.ref == ref)

/-- Mutation of the processor object with identity `ref`. -/
def AppState.modifyObject (st : AppState) (ref : Nat)
    (f : ImageProcessor → ImageProcessor) : AppState :=
  { st with
    processors := updateFirst (fun p => p.ref == ref) f st.processors
    detached := updateFirst (fun p => p.ref == ref) f st.detached }

/-- The promise of `loadMask(url, type)`. -/
def AppState.loadState (st : AppState) : MaskType → PromiseState
  | .small => st.smallLoad
  | .large => st.largeLoad

/-- Settle the promise of `loadMask(url, type)`. -/
def AppState.setLoadState (st : AppState) (type : MaskType) (s : PromiseState) : AppState :=
  match type with
  | .small => { st with smallLoad := s }
  | .large => { st with largeLoad := s }

/-! ## Mask store -/

/-- The body of the loop of `loadMask` for pixel `i`:
`Math.max(r, Math.max(g, b)) / 255.0`. -/
def maskAlpha (data : List Nat) (i : Nat) : ℚ :=
  let r := data.getD (i * 4) 0
  let g := data.getD (i * 4 + 1) 0
  let b := data.getD (i * 4 + 2) 0
  let maxVal := max r (max g b)
  (maxVal : ℚ) / 255

/-- The object `{ width: w, height: h, alphas }` that the `onload` handler of
`loadMask` builds from the decoded template `img`. -/
def maskOfTemplate (img : Image) : OpacityMask :=
  let w := img.width
  let h := img.height
  let alphas := (List.range (w * h)).map (maskAlpha img.data)
  { width := w, height := h, alphas := alphas }

/-- The `onload` handler of `loadMask(url, type)` for the decoded template
`img`: builds the mask and stores it in `STATE.masks[type]`. -/
def loadMask (st : AppState) (type : MaskType) (img : Image) : AppState :=
  { st with masks := st.masks.set type (maskOfTemplate img) }

/-- The part of `init` that follows `await Promise.all([...])`: nothing while
the combined promise is pending; the `catch` block as soon as one of the two
promises is rejected; the rest of the `try` block once both are fulfilled. -/
def initAwait (st : AppState) : AppState :=
  if st.initSettled then st
  else if st.smallLoad = .rejected ∨ st.largeLoad = .rejected then
    { st with
      console := st.console ++ [.failedToLoadMasks]
      alerts := st.alerts ++ [.loadAssetsError]
      initSettled := true }
  else if st.smallLoad = .fulfilled ∧ st.largeLoad = .fulfilled then
    { st with
      console := st.console ++ [.masksLoaded]
      posted := st.posted ++ [.initMasks st.masks]
      initSettled := true }
  else st

/-- The template image of `loadMask(url, type)` fires `onload` (`some img`) or
`onerror` (`none`); an image fires one of the two, once. -/
def maskSettled (st : AppState) (type : MaskType) (outcome : Option Image) : AppState :=
  if st.loadState type = .pending then
    match outcome with
    | some img => initAwait ((loadMask st type img).setLoadState type .fulfilled)
    | none => initAwait (st.setLoadState type .rejected)
  else st

/-! ## Compositor -/

/-- The local variables of `applyCustomLogo`. -/
structure LogoGeometry where
  mode : ForceMode
  targetSize : Nat
  margin : Nat
  scale : ℚ
  scaledWidth : ℚ
  scaledHeight : ℚ
  posX : ℚ
  posY : ℚ
  deriving DecidableEq, Repr

/-- The computation of `applyCustomLogo` between reading the canvas size and the
bounds test, for the logo image `logo`, `STATE.customLogo.scale = logoScale`,
`this.config.forceMode = forceMode` and a canvas of `w` by `h` pixels. -/
def logoGeometry (logo : Image) (logoScale : ℚ) (forceMode : ForceMode) (w h : Nat) :
    LogoGeometry :=
  let mode : ForceMode :=
    if forceMode = .auto then (if w > 1024 ∧ h > 1024 then .large else .small) else forceMode
  let targetSize : Nat := if mode = .large then 96 else 48
  let margin : Nat := if mode = .large then 64 else 32
  let scale : ℚ :=
    min ((targetSize : ℚ) / (logo.width : ℚ)) ((targetSize : ℚ) / (logo.height : ℚ)) * logoScale
  let scaledWidth : ℚ := (logo.width : ℚ) * scale
  let scaledHeight : ℚ := (logo.height : ℚ) * scale
  let posX : ℚ := (w : ℚ) - (margin : ℚ) - scaledWidth
  let posY : ℚ := (h : ℚ) - (margin : ℚ) - scaledHeight
  { mode := mode, targetSize := targetSize, margin := margin, scale := scale,
    scaledWidth := scaledWidth, scaledHeight := scaledHeight, posX := posX, posY := posY }

/-- The draw that `applyCustomLogo` performs on a canvas of `w` by `h` pixels,
if any: none without a logo image, none when `posX < 0 || posY < 0`. -/
def applyCustomLogoDraw (customLogo : CustomLogo) (forceMode : ForceMode) (w h : Nat) :
    Option LogoDraw :=
  match customLogo.image with
  | none => none
  | some logo =>
    let g := logoGeometry logo customLogo.scale forceMode w h
    if g.posX < 0 ∨ g.posY < 0 then none
    else some
      { logo := logo, globalAlpha := customLogo.opacity, posX := g.posX, posY := g.posY,
        scaledWidth := g.scaledWidth, scaledHeight := g.scaledHeight }

/-- The method `applyCustomLogo` of a processor: its effect on the canvas. -/
def applyCustomLogo (customLogo : CustomLogo) (this : ImageProcessor) : ImageProcessor :=
  match applyCustomLogoDraw customLogo this.config.forceMode this.canvas.width
      this.canvas.height with
  | none => this
  | some d => { this with canvas := { this.canvas with painted := this.canvas.painted ++ [d] } }

/-! ## Per-image session -/

/-- The canvas of a card before the script sizes it. -/
def blankCanvas : Bitmap :=
  { width := 300, height := 150, base := [], painted := [] }

/-- The constructor `new ImageProcessor(file)`. -/
def newImageProcessor (ref id : Nat) : ImageProcessor :=
  { ref := ref, id := id, config := { forceMode := .auto, alphaGain := 1 },
    originalImage := none, processedImageData := none, canvas := blankCanvas,
    loadingDisplay := .stylesheet, downloadDisabled := true }

/-- The synchronous part of `processAndRender` on the processor `ref`: returns
at once without an original image, else shows the loading overlay and arms the
50 ms timer. -/
def processAndRender (st : AppState) (ref : Nat) : AppState :=
  match st.object? ref with
  | none => st
  | some this =>
    match this.originalImage with
    | none => st
    | some _ =>
      { st.modifyObject ref (fun p => { p with loadingDisplay := .flex }) with
        timers := st.timers ++ [ref] }

/-- The timer callback of `processAndRender` on the processor `ref`: sizes the
canvas, draws the original image, reads it back and posts `PROCESS_IMAGE`. -/
def processTimeout (st : AppState) (ref : Nat) : AppState :=
  match st.object? ref with
  | none => st
  | some this =>
    match this.originalImage with
    | none => st
    | some img =>
      let canvas : Bitmap :=
        { width := img.width, height := img.height, base := img.data, painted := [] }
      let imageData : ImageData :=
        { width := canvas.width, height := canvas.height, data := canvas.base }
      { st.modifyObject ref (fun p => { p with canvas := canvas }) with
        posted := st.posted ++ [.processImage imageData this.config this.id] }

/-- The method `handleWorkerResult(processedImageData)`. -/
def handleWorkerResult (customLogo : CustomLogo) (this : ImageProcessor)
    (processedImageData : ImageData) : ImageProcessor :=
  let put : ImageProcessor :=
    { this with canvas := { this.canvas with base := processedImageData.data, painted := [] } }
  let drawn := applyCustomLogo customLogo put
  let finalImageData : Bitmap := drawn.canvas
  { drawn with
    processedImageData := some finalImageData
    loadingDisplay := .hidden
    downloadDisabled := false }

/-- The method `download` of the processor `ref`: nothing without
`processedImageData`, else the canvas is handed to `toBlob`. -/
def download (st : AppState) (ref : Nat) : AppState :=
  match st.object? ref with
  | none => st
  | some this =>
    match this.processedImageData with
    | none => st
    | some _ => { st with exported := st.exported ++ [(this.ref, this.canvas)] }

/-- The method `destroy` of the live processor `ref`:
`STATE.processors = STATE.processors.filter(p => p !== this)`. -/
def destroy (st : AppState) (ref : Nat) : AppState :=
  match st.processors.find? (fun p => p.ref == ref) with
  | none => st
  | some this =>
    { st with
      processors := st.processors.filter (fun p => p.ref != this.ref)
      detached := st.detached ++ [this] }

/-- The handler `startCompare` of the processor `ref`. -/
def startCompare (st : AppState) (ref : Nat) : AppState :=
  match st.processors.find? (fun p => p.ref == ref) with
  | none => st
  | some this =>
    match this.originalImage with
    | none => st
    | some img =>
      st.modifyObject ref (fun p => { p with canvas := { p.canvas with base := img.data, painted := [] } })

/-- The handler `endCompare` of the processor `ref`. -/
def endCompare (st : AppState) (ref : Nat) : AppState :=
  match st.processors.find? (fun p => p.ref == ref) with
  | none => st
  | some this =>
    match this.processedImageData with
    | none => st
    | some snap =>
      st.modifyObject ref
        (fun p => { p with canvas := { p.canvas with base := snap.base, painted := snap.painted } })

/-! ## Global handlers -/

/-- The function `handleFiles`: one processor per image file, pushed on
`STATE.processors`. -/
def handleFiles (st : AppState) (files : List FileEntry) : AppState :=
  files.foldl
    (fun s file =>
      if file.isImage then
        { s with
          processors := s.processors ++ [newImageProcessor s.nextRef file.randomId]
          nextRef := s.nextRef + 1 }
      else s)
    st

/-- The `onload` handler of `loadImage` for the processor `ref`. -/
def imageLoaded (st : AppState) (ref : Nat) (img : Image) : AppState :=
  match st.object? ref with
  | none => st
  | some this =>
    match this.originalImage with
    | some _ => st
    | none => processAndRender (st.modifyObject ref (fun p => { p with originalImage := some img })) ref

/-- The function `reprocessAllImages`. -/
def reprocessAllImages (st : AppState) : AppState :=
  st.processors.foldl (fun s p => processAndRender s p.ref) st

/-- The `change` handler of the size selector of the card of processor `ref`. -/
def sizeSelectChange (st : AppState) (ref : Nat) (value : ForceMode) : AppState :=
  match st.processors.find? (fun p => p.ref == ref) with
  | none => st
  | some _ =>
    processAndRender
      (st.modifyObject ref (fun p => { p with config := { p.config with forceMode := value } })) ref

/-- The `input` handler of the strength slider of the card of processor `ref`. -/
def alphaInput (st : AppState) (ref : Nat) (val : ℚ) : AppState :=
  match st.processors.find? (fun p => p.ref == ref) with
  | none => st
  | some _ =>
    processAndRender
      (st.modifyObject ref (fun p => { p with config := { p.config with alphaGain := val } })) ref

/-- The worker listener `STATE.worker.onmessage` installed by `init`. -/
def onmessage (st : AppState) : WorkerResponse → AppState
  | .processComplete id imageData =>
    match st.processors.find? (fun p => p.id == id) with
    | some _ =>
      { st with
        processors :=
          updateFirst (fun p => p.id == id)
            (fun processor => handleWorkerResult st.customLogo processor imageData)
            st.processors }
    | none => st
  | .processError id payload =>
    let st1 : AppState := { st with console := st.console ++ [.workerError payload] }
    match st1.processors.find? (fun p => p.id == id) with
    | some _ =>
      { st1 with
        processors :=
          updateFirst (fun p => p.id == id)
            (fun processor => { processor with loadingDisplay := .hidden })
            st1.processors
        alerts := st1.alerts ++ [.processingError payload] }
    | none => st1
  | .other => st

/-- The state once the script has run to the `await` of `init`: no mask, no
processor, the default logo settings, both mask loads pending. -/
def init : AppState :=
  { masks := { small := none, large := none }
    processors := []
    customLogo := { image := none, opacity := 8 / 10, scale := 1 }
    detached := []
    nextRef := 0
    timers := []
    posted := []
    alerts := []
    console := []
    smallLoad := .pending
    largeLoad := .pending
    initSettled := false
    exported := [] }

/-- One turn of the event loop. -/
def step (st : AppState) : Event → AppState
  | .maskSettled type outcome => maskSettled st type outcome
  | .handleFiles files => handleFiles st files
  | .imageLoaded ref img => imageLoaded st ref img
  | .timeout =>
    match st.timers with
    | [] => st
    | ref :: rest => processTimeout { st with timers := rest } ref
  | .sizeSelectChange ref value => sizeSelectChange st ref value
  | .alphaInput ref val => alphaInput st ref val
  | .downloadClick ref => download st ref
  | .removeClick ref => destroy st ref
  | .startCompare ref => startCompare st ref
  | .endCompare ref => endCompare st ref
  | .logoLoaded img =>
    reprocessAllImages { st with customLogo := { st.customLogo with image := some img } }
  | .logoOpacityInput value =>
    reprocessAllImages
      { st with customLogo := { st.customLogo with opacity := (value : ℚ) / 100 } }
  | .logoScaleInput value =>
    reprocessAllImages
      { st with customLogo := { st.customLogo with scale := (value : ℚ) / 100 } }
  | .clearLogo =>
    reprocessAllImages
      { st with customLogo := { image := none, opacity := 8 / 10, scale := 1 } }
  | .workerMessage msg => onmessage st msg

/-- The state after a sequence of events. -/
def run (st : AppState) (events : List Event) : AppState :=
  events.foldl step st


/-! ## Vocabulary of the statements about `init` -/

/-- Whether a message posted to the worker is `INIT_MASKS`. -/
def WorkerRequest.isInitMasks : WorkerRequest → Bool
  | .initMasks _ => true
  | .processImage _ _ _ => false

/-- The outcome of the load of the template `type` in a sequence of events: the
one of the first `maskSettled` event for `type`, if there is one. -/
def firstOutcome (type : MaskType) : List Event → Option (Option Image)
  | [] => none
  | .maskSettled t outcome :: rest =>
    if t = type then some outcome else firstOutcome type rest
  | _ :: rest => firstOutcome type rest

/-- The part of the state that `init` and `loadMask` act on: the masks, the two
promises, whether `Promise.all` has settled, the `INIT_MASKS` messages posted and
the number of `loadAssetsError` alerts. -/
def initView (st : AppState) :
    Masks × PromiseState × PromiseState × Bool × List WorkerRequest × Nat :=
  (st.masks, st.smallLoad, st.largeLoad, st.initSettled,
    st.posted.filter WorkerRequest.isInitMasks, st.alerts.count .loadAssetsError)

/-- The promise of a template load, from its outcome so far. -/
def promiseOf : Option (Option Image) → PromiseState
  | none => .pending
  | some none => .rejected
  | some (some _) => .fulfilled

/-- The mask stored for a template, from the outcome of its load so far. -/
def storedMask : Option (Option Image) → Option OpacityMask
  | some (some img) => some (maskOfTemplate img)
  | _ => none

/-- The `INIT_MASKS` messages to expect from the outcomes of the two loads: one,
carrying both masks, when both succeeded, none otherwise. -/
def expectedInitMasks : Option (Option Image) → Option (Option Image) → List WorkerRequest
  | some (some imgSmall), some (some imgLarge) =>
    [.initMasks ⟨some (maskOfTemplate imgSmall), some (maskOfTemplate imgLarge)⟩]
  | _, _ => []

/-- The number of `loadAssetsError` alerts to expect from the outcomes of the two
loads: one when a load failed, none otherwise. -/
def expectedLoadAlerts (small large : Option (Option Image)) : Nat :=
  if small = some none ∨ large = some none then 1 else 0

/-- Whether `Promise.all` has settled, from the outcomes of the two loads so far:
as soon as one failed, or once both succeeded. -/
def expectedSettled : Option (Option Image) → Option (Option Image) → Bool
  | some none, _ => true
  | _, some none => true
  | some (some _), some (some _) => true
  | _, _ => false

/-! ## Vocabulary of the statements about the order of messages -/

/-- Every `imageLoaded` event of the sequence happens in a state where
`INIT_MASKS` has already been posted, when the sequence runs from `st`. -/
def loadsAfterInit (st : AppState) : List Event → Bool
  | [] => true
  | e :: rest =>
    (match e with
      | .imageLoaded _ _ => st.posted.any WorkerRequest.isInitMasks
      | _ => true) && loadsAfterInit (step st e) rest

/-- Nothing has been posted, no timer is pending and no processor, live or
detached, has its image yet. -/
def Quiet (st : AppState) : Prop :=
  st.posted = [] ∧ st.timers = [] ∧
    ∀ p ∈ st.processors ++ st.detached, p.originalImage = none

instance (st : AppState) : Decidable (Quiet st) := by
  unfold Quiet
  infer_instance

/-- Whether some `handleFiles` event of the sequence creates a processor whose
random id is `X`. -/
def addsId (X : Nat) : List Event → Bool
  | [] => false
  | .handleFiles files :: rest =>
    files.any (fun file => file.isImage && file.randomId == X) || addsId X rest
  | _ :: rest => addsId X rest

/-! ## Vocabulary of the statements about reprocessing -/

/-- The `PROCESS_IMAGE` message that the timer callback of `processAndRender`
posts for the processor `p`: none while its image is not loaded. -/
def jobOf (p : ImageProcessor) : Option WorkerRequest :=
  p.originalImage.map
    (fun img => .processImage ⟨img.width, img.height, img.data⟩ p.config p.id)

/-- The `PROCESS_IMAGE` message that a timer closing over the object `ref` posts
in the state `st`. -/
def jobAt (st : AppState) (ref : Nat) : Option WorkerRequest :=
  (st.object? ref).bind jobOf

/-- Whether an event changes the logo overlay. -/
def Event.isLogoChange : Event → Bool
  | .logoLoaded _ => true
  | .logoOpacityInput _ => true
  | .logoScaleInput _ => true
  | .clearLogo => true
  | _ => false

/-- The identities of the objects of a state and the next identity to give. -/
def refsView (st : AppState) : List Nat × List Nat × Nat :=
  (st.processors.map (fun p => p.ref), st.detached.map (fun p => p.ref), st.nextRef)

/-- Object identities are pairwise distinct and below the next one to give. -/
def RefsOk (st : AppState) : Prop :=
  ((refsView st).1 ++ (refsView st).2.1).Nodup ∧
    ∀ r ∈ (refsView st).1 ++ (refsView st).2.1, r < (refsView st).2.2

instance (st : AppState) : Decidable (RefsOk st) := by
  unfold RefsOk
  infer_instance

/-! ## Sample states -/

/-- A state with two live sessions, of ids 7 and 9, whose images are not loaded
yet. -/
def twoSessions : AppState :=
  handleFiles init [⟨true, 7⟩, ⟨true, 9⟩]

/-- A sequence of events in which both templates load before the image of the
only session does. -/
def masksFirst : List Event :=
  [.maskSettled .small (some ⟨1, 1, [255, 255, 255, 255]⟩),
    .maskSettled .large (some ⟨1, 1, [128, 128, 128, 255]⟩),
    .handleFiles [⟨true, 7⟩], .imageLoaded 0 ⟨1, 1, [1, 2, 3, 255]⟩, .timeout]

/-- A session of id 7 goes through load, job and completion, then its size
selector is set to large and the timer of that change fires: the new job is in
flight. -/
def jobInFlight : List Event :=
  [.handleFiles [⟨true, 7⟩], .imageLoaded 0 ⟨1, 1, [1, 2, 3, 255]⟩, .timeout,
    .workerMessage (.processComplete 7 ⟨1, 1, [9, 9, 9, 255]⟩),
    .sizeSelectChange 0 .large, .timeout]

/-- Two sessions are added, of ids 7 and 9; the image of the first one loads and
its job is posted, the image of the second one is not loaded yet. -/
def mixedSessions : List Event :=
  [.handleFiles [⟨true, 7⟩, ⟨true, 9⟩], .imageLoaded 0 ⟨1, 1, [1, 2, 3, 255]⟩, .timeout]

/-! # Properties -/

/-! ## Mask store: `loadMask` -/

/-- C2: for every canvas size and every `forceMode` among auto, small and large,
`applyCustomLogo` takes `(targetSize, margin) = (96, 64)` exactly when the mode is
forced to large, or is auto with `w > 1024` and `h > 1024`; in every other case it
takes `(48, 32)`. A forced small or large mode overrides the dimensions. -/
theorem applyCustomLogo_placement (logo : Image) (s : ℚ) (forceMode : ForceMode) (w h : Nat) :
    ((logoGeometry logo s forceMode w h).targetSize,
        (logoGeometry logo s forceMode w h).margin) =
      (if forceMode = .large ∨ (forceMode = .auto ∧ w > 1024 ∧ h > 1024) then (96, 64)
        else (48, 32)) ∧
    (((logoGeometry logo s forceMode w h).targetSize,
        (logoGeometry logo s forceMode w h).margin) = (96, 64) ↔
      (forceMode = .large ∨ (forceMode = .auto ∧ w > 1024 ∧ h > 1024))) ∧
    ((logoGeometry logo s .large w h).targetSize,
        (logoGeometry logo s .large w h).margin) = (96, 64) ∧
    ((logoGeometry logo s .small w h).targetSize,
        (logoGeometry logo s .small w h).margin) = (48, 32) := by
  refine ⟨?_, ?_, rfl, rfl⟩
  · cases forceMode
    · by_cases hwh : w > 1024 ∧ h > 1024 <;> simp [logoGeometry, hwh]
    · simp [logoGeometry]
    · simp [logoGeometry]
  · cases forceMode
    · by_cases hwh : w > 1024 ∧ h > 1024 <;> simp [logoGeometry, hwh]
    · simp [logoGeometry]
    · simp [logoGeometry]

theorem updateFirst_nil {α : Type} (pred : α → Bool) (f : α → α) :
    updateFirst pred f [] = [] := rfl

theorem updateFirst_cons {α : Type} (pred : α → Bool) (f : α → α) (a : α) (as : List α) :
    updateFirst pred f (a :: as) = if pred a then f a :: as else a :: updateFirst pred f as :=
  rfl

theorem updateFirst_of_forall_false {α : Type} (pred : α → Bool) (f : α → α) (l : List α)
    (h : ∀ a ∈ l, pred a = false) : updateFirst pred f l = l := by
  induction l with
  | nil => rfl
  | cons a as ih =>
    have ha : pred a = false := h a (List.mem_cons_self a as)
    rw [updateFirst_cons, ha, ih (fun b hb => h b (List.mem_cons_of_mem a hb))]
    simp

theorem find?_eq_none_of_forall {α : Type} (pred : α → Bool) (l : List α)
    (h : ∀ a ∈ l, pred a = false) : l.find? pred = none := by
  rw [List.find?_eq_none]
  intro a ha
  simp [h a ha]

theorem updateFirst_eq_self_of_find?_none {α : Type} (pred : α → Bool) (f : α → α)
    (l : List α) (h : l.find? pred = none) : updateFirst pred f l = l := by
  apply updateFirst_of_forall_false
  intro a ha
  rw [List.find?_eq_none] at h
  simpa using h a ha

theorem updateFirst_id_eq_map (f : ImageProcessor → ImageProcessor) (X : Nat)
    (l : List ImageProcessor) (h : (l.map (fun p => p.id)).Nodup) :
    updateFirst (fun p => p.id == X) f l = l.map (fun p => if p.id = X then f p else p) := by
  induction l with
  | nil => rfl
  | cons a as ih =>
    rw [List.map_cons, List.nodup_cons] at h
    by_cases ha : a.id = X
    · have hrest : ∀ b ∈ as, b.id ≠ X := by
        intro b hb hbX
        exact h.1 (List.mem_map.mpr ⟨b, hb, by rw [hbX, ha]⟩)
      have hmap : as.map (fun p => if p.id = X then f p else p) = as := by
        conv_rhs => rw [← List.map_id as]
        apply List.map_congr_left
        intro b hb
        simp [hrest b hb]
      simp [updateFirst_cons, ha, hmap]
    · simp [updateFirst_cons, ha, ih h.2]

theorem updateFirst_comm (fA fB : ImageProcessor → ImageProcessor) (A B : Nat) (hAB : A ≠ B)
    (hfA : ∀ p, (fA p).id = p.id) (hfB : ∀ p, (fB p).id = p.id) (l : List ImageProcessor) :
    updateFirst (fun p => p.id == A) fA (updateFirst (fun p => p.id == B) fB l) =
      updateFirst (fun p => p.id == B) fB (updateFirst (fun p => p.id == A) fA l) := by
  induction l with
  | nil => rfl
  | cons a as ih =>
    by_cases hA : a.id = A
    · subst hA
      simp [updateFirst_cons, hAB, hfA]
    · by_cases hB : a.id = B
      · subst hB
        simp [updateFirst_cons, hA, hfB]
      · simp [updateFirst_cons, hA, hB, ih]

theorem find?_updateFirst_same (f : ImageProcessor → ImageProcessor) (X : Nat)
    (hf : ∀ p, (f p).id = p.id) (l : List ImageProcessor) :
    (updateFirst (fun p => p.id == X) f l).find? (fun p => p.id == X) =
      (l.find? (fun p => p.id == X)).map f := by
  induction l with
  | nil => rfl
  | cons a as ih =>
    by_cases ha : a.id = X
    · simp [updateFirst_cons, ha, hf]
    · simp [updateFirst_cons, ha, ih]

theorem find?_updateFirst_other (f : ImageProcessor → ImageProcessor) (X Y : Nat) (hXY : X ≠ Y)
    (hf : ∀ p, (f p).id = p.id) (l : List ImageProcessor) :
    (updateFirst (fun p => p.id == Y) f l).find? (fun p => p.id == X) =
      l.find? (fun p => p.id == X) := by
  induction l with
  | nil => rfl
  | cons a as ih =>
    by_cases hY : a.id = Y
    · subst hY
      have hX : ¬ a.id = X := fun hX => hXY hX.symm
      simp [updateFirst_cons, hf, hX]
    · by_cases hX : a.id = X
      · subst hX
        simp [updateFirst_cons, hY]
      · simp [updateFirst_cons, hY, hX, ih]

/-! ## Worker listener -/

theorem applyCustomLogo_id (customLogo : CustomLogo) (this : ImageProcessor) :
    (applyCustomLogo customLogo this).id = this.id := by
  unfold applyCustomLogo
  split <;> rfl

theorem handleWorkerResult_id (customLogo : CustomLogo) (this : ImageProcessor)
    (d : ImageData) : (handleWorkerResult customLogo this d).id = this.id := by
  simp only [handleWorkerResult]
  exact applyCustomLogo_id customLogo _

theorem onmessage_processComplete (st : AppState) (X : Nat) (d : ImageData) :
    onmessage st (.processComplete X d) =
      { st with
        processors :=
          updateFirst (fun p => p.id == X) (fun p => handleWorkerResult st.customLogo p d)
            st.processors } := by
  simp only [onmessage]
  split
  · rfl
  · next hnone => rw [updateFirst_eq_self_of_find?_none _ _ _ hnone]

theorem destroy_processors (st : AppState) (this : ImageProcessor)
    (hmem : this ∈ st.processors) :
    destroy st this.ref =
      { st with
        processors := st.processors.filter (fun p => p.ref != this.ref)
        detached := st.detached ++
          (st.processors.find? (fun p => p.ref == this.ref)).toList } := by
  unfold destroy
  split
  · next hnone =>
    rw [List.find?_eq_none] at hnone
    exact absurd (by simp) (hnone this hmem)
  · next q hq =>
    have hqref : q.ref = this.ref := by simpa using List.find?_some hq
    rw [hq, hqref]
    rfl

/-- C4: with pairwise distinct session ids, the worker listener hands a
`PROCESS_COMPLETE` carrying id `X` to the session whose id is `X` and to no
other: that session becomes `handleWorkerResult` of itself, every other session
and the rest of the state stay as they were; and when no live session has id
`X` the completion changes nothing. -/
theorem onmessage_routes_by_id (st : AppState) (X : Nat) (d : ImageData)
    (hids : (st.processors.map (fun p => p.id)).Nodup) :
    onmessage st (.processComplete X d) =
        { st with
          processors :=
            st.processors.map
              (fun p => if p.id = X then handleWorkerResult st.customLogo p d else p) } ∧
      ((∀ p ∈ st.processors, p.id ≠ X) → onmessage st (.processComplete X d) = st) := by
  constructor
  · rw [onmessage_processComplete, updateFirst_id_eq_map _ _ _ hids]
  · intro hnone
    rw [onmessage_processComplete, updateFirst_of_forall_false]
    intro p hp
    simpa using hnone p hp

/-- Witness of C4: two sessions of ids 7 and 9, a completion for id 9. -/
theorem onmessage_routes_by_id_witness :
    (twoSessions.processors.map (fun p => p.id)).Nodup ∧
      (onmessage twoSessions (.processComplete 9 ⟨1, 1, [0, 0, 0, 255]⟩) =
          { twoSessions with
            processors :=
              twoSessions.processors.map
                (fun p =>
                  if p.id = 9 then
                    handleWorkerResult twoSessions.customLogo p ⟨1, 1, [0, 0, 0, 255]⟩
                  else p) } ∧
        ((∀ p ∈ twoSessions.processors, p.id ≠ 9) →
          onmessage twoSessions (.processComplete 9 ⟨1, 1, [0, 0, 0, 255]⟩) = twoSessions)) :=
  ⟨by decide, onmessage_routes_by_id twoSessions 9 ⟨1, 1, [0, 0, 0, 255]⟩ (by decide)⟩

/-- C6: for two live sessions with distinct ids `A` and `B`, handling the
`PROCESS_COMPLETE` of `B` before that of `A` leaves the same state as handling
them in the other order, and in it each session holds its own result. -/
theorem onmessage_out_of_order (st : AppState) (A B : Nat) (dA dB : ImageData)
    (pA pB : ImageProcessor) (hAB : A ≠ B)
    (hA : st.processors.find? (fun p => p.id == A) = some pA)
    (hB : st.processors.find? (fun p => p.id == B) = some pB) :
    onmessage (onmessage st (.processComplete B dB)) (.processComplete A dA) =
        onmessage (onmessage st (.processComplete A dA)) (.processComplete B dB) ∧
      (onmessage (onmessage st (.processComplete B dB)) (.processComplete A dA)).processors.find?
          (fun p => p.id == A) = some (handleWorkerResult st.customLogo pA dA) ∧
      (onmessage (onmessage st (.processComplete B dB)) (.processComplete A dA)).processors.find?
          (fun p => p.id == B) = some (handleWorkerResult st.customLogo pB dB) := by
  have hfA : ∀ p, (handleWorkerResult st.customLogo p dA).id = p.id :=
    fun p => handleWorkerResult_id _ p dA
  have hfB : ∀ p, (handleWorkerResult st.customLogo p dB).id = p.id :=
    fun p => handleWorkerResult_id _ p dB
  simp only [onmessage_processComplete]
  refine ⟨?_, ?_, ?_⟩
  · rw [updateFirst_comm _ _ A B hAB hfA hfB]
  · rw [find?_updateFirst_same _ A hfA, find?_updateFirst_other _ A B hAB hfB, hA]
    rfl
  · rw [find?_updateFirst_other _ B A (Ne.symm hAB) hfA, find?_updateFirst_same _ B hfB, hB]
    rfl

/-- Witness of C6: two sessions of ids 7 and 9. -/
theorem onmessage_out_of_order_witness :
    onmessage (onmessage twoSessions (.processComplete 9 ⟨1, 1, [9, 9, 9, 255]⟩))
          (.processComplete 7 ⟨1, 1, [7, 7, 7, 255]⟩) =
        onmessage (onmessage twoSessions (.processComplete 7 ⟨1, 1, [7, 7, 7, 255]⟩))
          (.processComplete 9 ⟨1, 1, [9, 9, 9, 255]⟩) ∧
      (onmessage (onmessage twoSessions (.processComplete 9 ⟨1, 1, [9, 9, 9, 255]⟩))
          (.processComplete 7 ⟨1, 1, [7, 7, 7, 255]⟩)).processors.find?
          (fun p => p.id == 7) =
        some (handleWorkerResult twoSessions.customLogo (newImageProcessor 0 7)
          ⟨1, 1, [7, 7, 7, 255]⟩) ∧
      (onmessage (onmessage twoSessions (.processComplete 9 ⟨1, 1, [9, 9, 9, 255]⟩))
          (.processComplete 7 ⟨1, 1, [7, 7, 7, 255]⟩)).processors.find?
          (fun p => p.id == 9) =
        some (handleWorkerResult twoSessions.customLogo (newImageProcessor 1 9)
          ⟨1, 1, [9, 9, 9, 255]⟩) :=
  onmessage_out_of_order twoSessions 7 9 ⟨1, 1, [7, 7, 7, 255]⟩ ⟨1, 1, [9, 9, 9, 255]⟩
    (newImageProcessor 0 7) (newImageProcessor 1 9) (by decide) rfl rfl

/-! ## A live session in focus

The lemmas of this section describe the handlers on a state whose live list is
`pre ++ this :: post`, where no other object carries the identity of `this`. -/

theorem modifyObject_initView (st : AppState) (ref : Nat)
    (f : ImageProcessor → ImageProcessor) :
    initView (st.modifyObject ref f) = initView st := rfl

theorem processAndRender_initView (st : AppState) (ref : Nat) :
    initView (processAndRender st ref) = initView st := by
  unfold processAndRender
  split
  · rfl
  · split <;> rfl

theorem processTimeout_initView (st : AppState) (ref : Nat) :
    initView (processTimeout st ref) = initView st := by
  unfold processTimeout
  split
  · rfl
  · split
    · rfl
    · simp [initView, AppState.modifyObject, List.filter_append, WorkerRequest.isInitMasks]

theorem handleFiles_initView (st : AppState) (files : List FileEntry) :
    initView (handleFiles st files) = initView st := by
  induction files generalizing st with
  | nil => rfl
  | cons file rest ih =>
    unfold handleFiles at ih ⊢
    rw [List.foldl_cons, ih]
    split <;> rfl

theorem imageLoaded_initView (st : AppState) (ref : Nat) (img : Image) :
    initView (imageLoaded st ref img) = initView st := by
  unfold imageLoaded
  split
  · rfl
  · split
    · rfl
    · rw [processAndRender_initView, modifyObject_initView]

theorem foldl_processAndRender_initView (l : List ImageProcessor) (st : AppState) :
    initView (l.foldl (fun s p => processAndRender s p.ref) st) = initView st := by
  induction l generalizing st with
  | nil => rfl
  | cons p rest ih => rw [List.foldl_cons, ih, processAndRender_initView]

theorem reprocessAllImages_initView (st : AppState) :
    initView (reprocessAllImages st) = initView st :=
  foldl_processAndRender_initView st.processors st

theorem sizeSelectChange_initView (st : AppState) (ref : Nat) (value : ForceMode) :
    initView (sizeSelectChange st ref value) = initView st := by
  unfold sizeSelectChange
  split
  · rfl
  · rw [processAndRender_initView, modifyObject_initView]

theorem alphaInput_initView (st : AppState) (ref : Nat) (val : ℚ) :
    initView (alphaInput st ref val) = initView st := by
  unfold alphaInput
  split
  · rfl
  · rw [processAndRender_initView, modifyObject_initView]

theorem download_initView (st : AppState) (ref : Nat) :
    initView (download st ref) = initView st := by
  unfold download
  split
  · rfl
  · split <;> rfl

theorem destroy_initView (st : AppState) (ref : Nat) :
    initView (destroy st ref) = initView st := by
  unfold destroy
  split <;> rfl

theorem startCompare_initView (st : AppState) (ref : Nat) :
    initView (startCompare st ref) = initView st := by
  unfold startCompare
  split
  · rfl
  · split <;> rfl

theorem endCompare_initView (st : AppState) (ref : Nat) :
    initView (endCompare st ref) = initView st := by
  unfold endCompare
  split
  · rfl
  · split <;> rfl

theorem onmessage_initView (st : AppState) (msg : WorkerResponse) :
    initView (onmessage st msg) = initView st := by
  cases msg with
  | processComplete id d =>
    rw [onmessage_processComplete]
    rfl
  | processError id payload =>
    simp only [onmessage]
    split
    · simp [initView, List.count_append]
    · rfl
  | other => rfl

theorem step_initView (st : AppState) (e : Event)
    (he : ∀ type outcome, e ≠ .maskSettled type outcome) :
    initView (step st e) = initView st := by
  cases e with
  | maskSettled type outcome => exact absurd rfl (he type outcome)
  | handleFiles files => exact handleFiles_initView st files
  | imageLoaded ref img => exact imageLoaded_initView st ref img
  | timeout =>
    simp only [step]
    split
    · rfl
    · rw [processTimeout_initView]
      rfl
  | sizeSelectChange ref value => exact sizeSelectChange_initView st ref value
  | alphaInput ref val => exact alphaInput_initView st ref val
  | downloadClick ref => exact download_initView st ref
  | removeClick ref => exact destroy_initView st ref
  | startCompare ref => exact startCompare_initView st ref
  | endCompare ref => exact endCompare_initView st ref
  | logoLoaded img => exact reprocessAllImages_initView _
  | logoOpacityInput value => exact reprocessAllImages_initView _
  | logoScaleInput value => exact reprocessAllImages_initView _
  | clearLogo => exact reprocessAllImages_initView _
  | workerMessage msg => exact onmessage_initView st msg

theorem run_append_singleton (st : AppState) (events : List Event) (e : Event) :
    run st (events ++ [e]) = step (run st events) e := by
  simp [run, List.foldl_append]

theorem firstOutcome_append_singleton (type : MaskType) (events : List Event) (e : Event) :
    firstOutcome type (events ++ [e]) =
      (firstOutcome type events).orElse (fun _ => firstOutcome type [e]) := by
  induction events with
  | nil => cases h : firstOutcome type [e] <;> simp [firstOutcome, h]
  | cons a rest ih =>
    cases a with
    | maskSettled t o =>
      by_cases ht : t = type
      · simp [firstOutcome, ht]
      · simp only [List.cons_append, firstOutcome, ht, if_false]
        exact ih
    | _ => simpa only [List.cons_append, firstOutcome] using ih

theorem firstOutcome_singleton_other (type : MaskType) (e : Event)
    (he : ∀ t outcome, e ≠ .maskSettled t outcome) : firstOutcome type [e] = none := by
  cases e with
  | maskSettled t o => exact absurd rfl (he t o)
  | _ => rfl

theorem firstOutcome_append_other (type : MaskType) (events : List Event) (e : Event)
    (he : ∀ t outcome, e ≠ .maskSettled t outcome) :
    firstOutcome type (events ++ [e]) = firstOutcome type events := by
  rw [firstOutcome_append_singleton, firstOutcome_singleton_other type e he]
  cases firstOutcome type events <;> rfl


theorem maskSettled_initView (st : AppState) (type : MaskType) (outcome : Option Image)
    (small large : Option (Option Image))
    (h : initView st =
      (⟨storedMask small, storedMask large⟩, promiseOf small, promiseOf large,
        expectedSettled small large, expectedInitMasks small large,
        expectedLoadAlerts small large)) :
    initView (maskSettled st type outcome) =
      (⟨storedMask
            (small.orElse fun _ => firstOutcome .small [.maskSettled type outcome]),
          storedMask
            (large.orElse fun _ => firstOutcome .large [.maskSettled type outcome])⟩,
        promiseOf
          (small.orElse fun _ => firstOutcome .small [.maskSettled type outcome]),
        promiseOf
          (large.orElse fun _ => firstOutcome .large [.maskSettled type outcome]),
        expectedSettled
          (small.orElse fun _ => firstOutcome .small [.maskSettled type outcome])
          (large.orElse fun _ => firstOutcome .large [.maskSettled type outcome]),
        expectedInitMasks
          (small.orElse fun _ => firstOutcome .small [.maskSettled type outcome])
          (large.orElse fun _ => firstOutcome .large [.maskSettled type outcome]),
        expectedLoadAlerts
          (small.orElse fun _ => firstOutcome .small [.maskSettled type outcome])
          (large.orElse fun _ => firstOutcome .large [.maskSettled type outcome])) := by
  obtain ⟨masks, processors, customLogo, detached, nextRef, timers, posted, alerts, console,
    smallLoad, largeLoad, initSettled, exported⟩ := st
  simp only [initView, Prod.mk.injEq] at h
  obtain ⟨rfl, rfl, rfl, rfl, h5, h6⟩ := h
  rcases small with _ | _ | imgS <;> rcases large with _ | _ | imgL <;> cases type <;>
    cases outcome <;>
    simp [maskSettled, initAwait, loadMask, AppState.loadState, AppState.setLoadState,
      Masks.set, initView, promiseOf, storedMask, expectedSettled, expectedInitMasks,
      expectedLoadAlerts, firstOutcome, List.filter_append, List.count_append,
      WorkerRequest.isInitMasks, h5, h6] at h5 h6 ⊢ 

theorem initView_run (events : List Event) :
    initView (run init events) =
      (⟨storedMask (firstOutcome .small events), storedMask (firstOutcome .large events)⟩,
        promiseOf (firstOutcome .small events), promiseOf (firstOutcome .large events),
        expectedSettled (firstOutcome .small events) (firstOutcome .large events),
        expectedInitMasks (firstOutcome .small events) (firstOutcome .large events),
        expectedLoadAlerts (firstOutcome .small events) (firstOutcome .large events)) := by
  induction events using List.reverseRecOn with
  | nil => rfl
  | append_singleton events e ih =>
    rw [run_append_singleton]
    by_cases he : ∀ type outcome, e ≠ .maskSettled type outcome
    · rw [step_initView _ e he, ih, firstOutcome_append_other _ _ _ he,
        firstOutcome_append_other _ _ _ he]
    · push_neg at he
      obtain ⟨type, outcome, rfl⟩ := he
      rw [firstOutcome_append_singleton, firstOutcome_append_singleton]
      exact maskSettled_initView _ type outcome _ _ ih

/-! ## Messages posted to the worker -/

theorem mem_updateFirst {α : Type} (pred : α → Bool) (f : α → α) (l : List α) (q : α)
    (hq : q ∈ updateFirst pred f l) : q ∈ l ∨ ∃ p ∈ l, q = f p := by
  induction l with
  | nil => exact absurd hq (List.not_mem_nil q)
  | cons a as ih =>
    rw [updateFirst_cons] at hq
    split at hq
    · rcases List.mem_cons.mp hq with h | h
      · exact Or.inr ⟨a, List.mem_cons_self a as, h⟩
      · exact Or.inl (List.mem_cons_of_mem a h)
    · rcases List.mem_cons.mp hq with h | h
      · exact Or.inl (h ▸ List.mem_cons_self a as)
      · rcases ih h with h1 | ⟨p, hp, hpq⟩
        · exact Or.inl (List.mem_cons_of_mem a h1)
        · exact Or.inr ⟨p, List.mem_cons_of_mem a hp, hpq⟩

theorem modifyObject_quiet (st : AppState) (ref : Nat) (f : ImageProcessor → ImageProcessor)
    (hf : ∀ p, (f p).originalImage = p.originalImage) (h : Quiet st) :
    Quiet (st.modifyObject ref f) := by
  obtain ⟨h1, h2, h3⟩ := h
  refine ⟨h1, h2, ?_⟩
  intro q hq
  simp only [AppState.modifyObject, List.mem_append] at hq
  rcases hq with hq | hq
  · rcases mem_updateFirst _ _ _ _ hq with hq | ⟨p, hp, rfl⟩
    · exact h3 q (List.mem_append_left _ hq)
    · rw [hf]
      exact h3 p (List.mem_append_left _ hp)
  · rcases mem_updateFirst _ _ _ _ hq with hq | ⟨p, hp, rfl⟩
    · exact h3 q (List.mem_append_right _ hq)
    · rw [hf]
      exact h3 p (List.mem_append_right _ hp)

theorem processAndRender_quiet (st : AppState) (ref : Nat) (h : Quiet st) :
    processAndRender st ref = st := by
  unfold processAndRender
  split
  · rfl
  · next this hthis =>
    have hmem : this ∈ st.processors ++ st.detached := List.mem_of_find?_eq_some hthis
    rw [h.2.2 this hmem]

theorem foldl_processAndRender_quiet (l : List ImageProcessor) (st : AppState) (h : Quiet st) :
    l.foldl (fun s p => processAndRender s p.ref) st = st := by
  induction l with
  | nil => rfl
  | cons p rest ih => rw [List.foldl_cons, processAndRender_quiet st p.ref h, ih]

theorem reprocessAllImages_quiet (st : AppState) (h : Quiet st) :
    reprocessAllImages st = st :=
  foldl_processAndRender_quiet st.processors st h

theorem handleFiles_quiet (st : AppState) (files : List FileEntry) (h : Quiet st) :
    Quiet (handleFiles st files) := by
  induction files generalizing st with
  | nil => exact h
  | cons file rest ih =>
    unfold handleFiles at ih ⊢
    rw [List.foldl_cons]
    apply ih
    split
    · obtain ⟨h1, h2, h3⟩ := h
      refine ⟨h1, h2, ?_⟩
      intro q hq
      simp only [List.mem_append, List.mem_singleton] at hq
      rcases hq with (hq | rfl) | hq
      · exact h3 q (List.mem_append_left _ hq)
      · rfl
      · exact h3 q (List.mem_append_right _ hq)
    · exact h

theorem sizeSelectChange_quiet (st : AppState) (ref : Nat) (value : ForceMode)
    (h : Quiet st) : Quiet (sizeSelectChange st ref value) := by
  unfold sizeSelectChange
  split
  · exact h
  · have hq := modifyObject_quiet st ref
      (fun p => { p with config := { p.config with forceMode := value } }) (fun _ => rfl) h
    rw [processAndRender_quiet _ ref hq]
    exact hq

theorem alphaInput_quiet (st : AppState) (ref : Nat) (val : ℚ)
    (h : Quiet st) : Quiet (alphaInput st ref val) := by
  unfold alphaInput
  split
  · exact h
  · have hq := modifyObject_quiet st ref
      (fun p => { p with config := { p.config with alphaGain := val } }) (fun _ => rfl) h
    rw [processAndRender_quiet _ ref hq]
    exact hq

theorem download_quiet (st : AppState) (ref : Nat) (h : Quiet st) :
    Quiet (download st ref) := by
  unfold download
  split
  · exact h
  · split
    · exact h
    · exact h

theorem destroy_quiet (st : AppState) (ref : Nat) (h : Quiet st) :
    Quiet (destroy st ref) := by
  unfold destroy
  split
  · exact h
  · next this hthis =>
    obtain ⟨h1, h2, h3⟩ := h
    refine ⟨h1, h2, ?_⟩
    intro q hq
    simp only [List.mem_append, List.mem_filter, List.mem_singleton] at hq
    rcases hq with hq | hq | rfl
    · exact h3 q (List.mem_append_left _ hq.1)
    · exact h3 q (List.mem_append_right _ hq)
    · exact h3 q (List.mem_append_left _ (List.mem_of_find?_eq_some hthis))

theorem startCompare_quiet (st : AppState) (ref : Nat) (h : Quiet st) :
    Quiet (startCompare st ref) := by
  unfold startCompare
  split
  · exact h
  · split
    · exact h
    · exact modifyObject_quiet st ref _ (fun _ => rfl) h

theorem endCompare_quiet (st : AppState) (ref : Nat) (h : Quiet st) :
    Quiet (endCompare st ref) := by
  unfold endCompare
  split
  · exact h
  · split
    · exact h
    · exact modifyObject_quiet st ref _ (fun _ => rfl) h

theorem applyCustomLogo_originalImage (customLogo : CustomLogo) (this : ImageProcessor) :
    (applyCustomLogo customLogo this).originalImage = this.originalImage := by
  unfold applyCustomLogo
  split <;> rfl

theorem handleWorkerResult_originalImage (customLogo : CustomLogo) (this : ImageProcessor)
    (d : ImageData) :
    (handleWorkerResult customLogo this d).originalImage = this.originalImage := by
  simp only [handleWorkerResult]
  exact applyCustomLogo_originalImage customLogo _

theorem onmessage_quiet (st : AppState) (msg : WorkerResponse) (h : Quiet st) :
    Quiet (onmessage st msg) := by
  obtain ⟨h1, h2, h3⟩ := h
  have key : ∀ (pred : ImageProcessor → Bool) (f : ImageProcessor → ImageProcessor),
      (∀ p, (f p).originalImage = p.originalImage) →
      ∀ q ∈ updateFirst pred f st.processors ++ st.detached, q.originalImage = none := by
    intro pred f hf q hq
    rcases List.mem_append.mp hq with hq | hq
    · rcases mem_updateFirst _ _ _ _ hq with hq | ⟨p, hp, rfl⟩
      · exact h3 q (List.mem_append_left _ hq)
      · rw [hf]
        exact h3 p (List.mem_append_left _ hp)
    · exact h3 q (List.mem_append_right _ hq)
  cases msg with
  | processComplete id d =>
    rw [onmessage_processComplete]
    exact ⟨h1, h2, key _ _ (fun p => handleWorkerResult_originalImage _ p d)⟩
  | processError id payload =>
    simp only [onmessage]
    split
    · exact ⟨h1, h2, key _ _ (fun _ => rfl)⟩
    · exact ⟨h1, h2, h3⟩
  | other => exact ⟨h1, h2, h3⟩

theorem initAwait_posted (st : AppState) :
    (initAwait st).posted = st.posted ∨
      ∃ m, (initAwait st).posted = st.posted ++ [.initMasks m] := by
  unfold initAwait
  split
  · exact Or.inl rfl
  · split
    · exact Or.inl rfl
    · split
      · exact Or.inr ⟨_, rfl⟩
      · exact Or.inl rfl

theorem initAwait_rest (st : AppState) :
    (initAwait st).timers = st.timers ∧ (initAwait st).processors = st.processors ∧
      (initAwait st).detached = st.detached := by
  unfold initAwait
  split
  · exact ⟨rfl, rfl, rfl⟩
  · split
    · exact ⟨rfl, rfl, rfl⟩
    · split
      · exact ⟨rfl, rfl, rfl⟩
      · exact ⟨rfl, rfl, rfl⟩

theorem setLoadState_rest (st : AppState) (type : MaskType) (s : PromiseState) :
    (st.setLoadState type s).posted = st.posted ∧
      (st.setLoadState type s).timers = st.timers ∧
      (st.setLoadState type s).processors = st.processors ∧
      (st.setLoadState type s).detached = st.detached := by
  cases type <;> exact ⟨rfl, rfl, rfl, rfl⟩

theorem maskSettled_posted (st : AppState) (type : MaskType) (outcome : Option Image) :
    (maskSettled st type outcome).posted = st.posted ∨
      ∃ m, (maskSettled st type outcome).posted = st.posted ++ [.initMasks m] := by
  unfold maskSettled
  split
  · cases outcome with
    | none =>
      have h := initAwait_posted (st.setLoadState type .rejected)
      rw [(setLoadState_rest st type .rejected).1] at h
      exact h
    | some img =>
      have h := initAwait_posted ((loadMask st type img).setLoadState type .fulfilled)
      rw [(setLoadState_rest (loadMask st type img) type .fulfilled).1] at h
      exact h
  · exact Or.inl rfl

theorem maskSettled_rest (st : AppState) (type : MaskType) (outcome : Option Image) :
    (maskSettled st type outcome).timers = st.timers ∧
      (maskSettled st type outcome).processors = st.processors ∧
      (maskSettled st type outcome).detached = st.detached := by
  unfold maskSettled
  split
  · cases outcome with
    | none =>
      have h := initAwait_rest (st.setLoadState type .rejected)
      have h2 := setLoadState_rest st type .rejected
      exact ⟨h.1.trans h2.2.1, h.2.1.trans h2.2.2.1, h.2.2.trans h2.2.2.2⟩
    | some img =>
      have h := initAwait_rest ((loadMask st type img).setLoadState type .fulfilled)
      have h2 := setLoadState_rest (loadMask st type img) type .fulfilled
      exact ⟨h.1.trans h2.2.1, h.2.1.trans h2.2.2.1, h.2.2.trans h2.2.2.2⟩
  · exact ⟨rfl, rfl, rfl⟩

theorem processAndRender_posted (st : AppState) (ref : Nat) :
    (processAndRender st ref).posted = st.posted := by
  unfold processAndRender
  split
  · rfl
  · split <;> rfl

theorem processTimeout_posted (st : AppState) (ref : Nat) :
    ∃ extra, (processTimeout st ref).posted = st.posted ++ extra := by
  unfold processTimeout
  split
  · exact ⟨[], (List.append_nil _).symm⟩
  · split
    · exact ⟨[], (List.append_nil _).symm⟩
    · exact ⟨_, rfl⟩

theorem handleFiles_posted (st : AppState) (files : List FileEntry) :
    (handleFiles st files).posted = st.posted := by
  induction files generalizing st with
  | nil => rfl
  | cons file rest ih =>
    unfold handleFiles at ih ⊢
    rw [List.foldl_cons, ih]
    split <;> rfl

theorem foldl_processAndRender_posted (l : List ImageProcessor) (st : AppState) :
    (l.foldl (fun s p => processAndRender s p.ref) st).posted = st.posted := by
  induction l generalizing st with
  | nil => rfl
  | cons p rest ih => rw [List.foldl_cons, ih, processAndRender_posted]

theorem step_posted (st : AppState) (e : Event) :
    ∃ extra, (step st e).posted = st.posted ++ extra := by
  have same : ∀ s : AppState, s.posted = st.posted → ∃ extra, s.posted = st.posted ++ extra :=
    fun s hs => ⟨[], by rw [hs, List.append_nil]⟩
  cases e with
  | maskSettled type outcome =>
    rcases maskSettled_posted st type outcome with h | ⟨m, h⟩
    · exact same _ h
    · exact ⟨_, h⟩
  | handleFiles files => exact same _ (handleFiles_posted st files)
  | imageLoaded ref img =>
    apply same
    simp only [step, imageLoaded]
    split
    · rfl
    · split
      · rfl
      · rw [processAndRender_posted]
        rfl
  | timeout =>
    simp only [step]
    split
    · exact same _ rfl
    · exact processTimeout_posted _ _
  | sizeSelectChange ref value =>
    apply same
    simp only [step, sizeSelectChange]
    split
    · rfl
    · rw [processAndRender_posted]
      rfl
  | alphaInput ref val =>
    apply same
    simp only [step, alphaInput]
    split
    · rfl
    · rw [processAndRender_posted]
      rfl
  | downloadClick ref =>
    apply same
    simp only [step, download]
    split
    · rfl
    · split <;> rfl
  | removeClick ref =>
    apply same
    simp only [step, destroy]
    split <;> rfl
  | startCompare ref =>
    apply same
    simp only [step, startCompare]
    split
    · rfl
    · split <;> rfl
  | endCompare ref =>
    apply same
    simp only [step, endCompare]
    split
    · rfl
    · split <;> rfl
  | logoLoaded img => exact same _ (foldl_processAndRender_posted _ _)
  | logoOpacityInput value => exact same _ (foldl_processAndRender_posted _ _)
  | logoScaleInput value => exact same _ (foldl_processAndRender_posted _ _)
  | clearLogo => exact same _ (foldl_processAndRender_posted _ _)
  | workerMessage msg =>
    apply same
    cases msg with
    | processComplete id d =>
      simp only [step]
      rw [onmessage_processComplete]
    | processError id payload =>
      simp only [step, onmessage]
      split <;> rfl
    | other => rfl

theorem step_quiet (st : AppState) (e : Event) (h : Quiet st)
    (he : ∀ ref img, e ≠ .imageLoaded ref img) :
    Quiet (step st e) ∨ ∃ m rest, (step st e).posted = .initMasks m :: rest := by
  cases e with
  | maskSettled type outcome =>
    have hrest := maskSettled_rest st type outcome
    rcases maskSettled_posted st type outcome with hp | ⟨m, hp⟩
    · left
      refine ⟨hp.trans h.1, hrest.1.trans h.2.1, ?_⟩
      show ∀ p ∈ (maskSettled st type outcome).processors ++
        (maskSettled st type outcome).detached, p.originalImage = none
      rw [hrest.2.1, hrest.2.2]
      exact h.2.2
    · right
      refine ⟨m, [], ?_⟩
      show (maskSettled st type outcome).posted = _
      rw [hp, h.1]
      rfl
  | handleFiles files => exact Or.inl (handleFiles_quiet st files h)
  | imageLoaded ref img => exact absurd rfl (he ref img)
  | timeout =>
    left
    have ht : st.timers = [] := h.2.1
    simp only [step, ht]
    exact h
  | sizeSelectChange ref value => exact Or.inl (sizeSelectChange_quiet st ref value h)
  | alphaInput ref val => exact Or.inl (alphaInput_quiet st ref val h)
  | downloadClick ref => exact Or.inl (download_quiet st ref h)
  | removeClick ref => exact Or.inl (destroy_quiet st ref h)
  | startCompare ref => exact Or.inl (startCompare_quiet st ref h)
  | endCompare ref => exact Or.inl (endCompare_quiet st ref h)
  | logoLoaded img =>
    left
    have hq : Quiet { st with customLogo := { st.customLogo with image := some img } } := h
    simp only [step]
    rw [reprocessAllImages_quiet _ hq]
    exact hq
  | logoOpacityInput value =>
    left
    have hq : Quiet
        { st with customLogo := { st.customLogo with opacity := (value : ℚ) / 100 } } := h
    simp only [step]
    rw [reprocessAllImages_quiet _ hq]
    exact hq
  | logoScaleInput value =>
    left
    have hq : Quiet
        { st with customLogo := { st.customLogo with scale := (value : ℚ) / 100 } } := h
    simp only [step]
    rw [reprocessAllImages_quiet _ hq]
    exact hq
  | clearLogo =>
    left
    have hq : Quiet
        { st with customLogo := { image := none, opacity := 8 / 10, scale := 1 } } := h
    simp only [step]
    rw [reprocessAllImages_quiet _ hq]
    exact hq
  | workerMessage msg => exact Or.inl (onmessage_quiet st msg h)

theorem step_order (st : AppState) (e : Event)
    (hK : Quiet st ∨ ∃ m rest, st.posted = .initMasks m :: rest)
    (he : (match e with
      | .imageLoaded _ _ => st.posted.any WorkerRequest.isInitMasks
      | _ => true) = true) :
    Quiet (step st e) ∨ ∃ m rest, (step st e).posted = .initMasks m :: rest := by
  rcases hK with hq | ⟨m, rest, hm⟩
  · apply step_quiet st e hq
    intro ref img hcontra
    subst hcontra
    simp [hq.1] at he
  · right
    obtain ⟨extra, hextra⟩ := step_posted st e
    exact ⟨m, rest ++ extra, by rw [hextra, hm]; rfl⟩

theorem run_order (events : List Event) (st : AppState)
    (hK : Quiet st ∨ ∃ m rest, st.posted = .initMasks m :: rest)
    (h : loadsAfterInit st events = true) :
    Quiet (run st events) ∨ ∃ m rest, (run st events).posted = .initMasks m :: rest := by
  induction events generalizing st with
  | nil => exact hK
  | cons e rest ih =>
    simp only [loadsAfterInit, Bool.and_eq_true] at h
    exact ih (step st e) (step_order st e hK h.1) h.2

/-! ## Initialization and the order of messages -/

/-- C9: in every sequence of events from the start of the page, the `INIT_MASKS`
messages posted so far are exactly one message carrying both the mask of the
small template and the mask of the large template when both template loads
have succeeded, and none otherwise; the `loadAssetsError` alerts raised so far
are exactly one when a template load has failed, and none otherwise. -/
theorem init_posts_masks (events : List Event) :
    (run init events).posted.filter WorkerRequest.isInitMasks =
        expectedInitMasks (firstOutcome .small events) (firstOutcome .large events) ∧
      (run init events).alerts.count .loadAssetsError =
        expectedLoadAlerts (firstOutcome .small events) (firstOutcome .large events) := by
  have h := initView_run events
  simp only [initView, Prod.mk.injEq] at h
  exact ⟨h.2.2.2.2.1, h.2.2.2.2.2⟩

/-- C8, as the script behaves: in every sequence of events in which no image of a
session finishes loading before `INIT_MASKS` has been posted, every
`PROCESS_IMAGE` message posted comes after an `INIT_MASKS` message. -/
theorem no_job_before_masks (events : List Event)
    (hload : loadsAfterInit init events = true) :
    ∀ (before : List WorkerRequest) (imageData : ImageData) (config : Config) (id : Nat)
      (after : List WorkerRequest),
      (run init events).posted = before ++ .processImage imageData config id :: after →
        ∃ m, WorkerRequest.initMasks m ∈ before := by
  intro before imageData config id after hposted
  have hinit : Quiet init ∨ ∃ m rest, init.posted = .initMasks m :: rest :=
    Or.inl ⟨rfl, rfl, fun p hp => absurd hp (List.not_mem_nil p)⟩
  rcases run_order events init hinit hload with hq | ⟨m, rest, hm⟩
  · rw [hq.1] at hposted
    simp at hposted
  · rw [hm] at hposted
    cases before with
    | nil => simp at hposted
    | cons x xs =>
      simp only [List.cons_append, List.cons.injEq] at hposted
      exact ⟨m, hposted.1 ▸ List.mem_cons_self _ _⟩

/-- Witness of the amended C8: both templates load, then a session is added, its
image loads and its timer posts the job. -/
theorem no_job_before_masks_witness :
    loadsAfterInit init masksFirst = true ∧
      ∀ (before : List WorkerRequest) (imageData : ImageData) (config : Config) (id : Nat)
        (after : List WorkerRequest),
        (run init masksFirst).posted = before ++ .processImage imageData config id :: after →
          ∃ m, WorkerRequest.initMasks m ∈ before :=
  ⟨rfl, no_job_before_masks masksFirst rfl⟩

/-- C8 as stated fails: with both template loads still pending, a session whose
image loads posts `PROCESS_IMAGE` as the first message to the worker; and after
the small template failed to load (one `loadAssetsError` alert), a session
whose image loads still posts `PROCESS_IMAGE`. -/
theorem no_job_before_masks_counterexample :
    (run init
        [.handleFiles [⟨true, 7⟩], .imageLoaded 0 ⟨1, 1, [1, 2, 3, 255]⟩, .timeout]).posted =
        [.processImage ⟨1, 1, [1, 2, 3, 255]⟩ ⟨.auto, 1⟩ 7] ∧
      (run init
        [.maskSettled .small none, .handleFiles [⟨true, 7⟩],
          .imageLoaded 0 ⟨1, 1, [1, 2, 3, 255]⟩, .timeout]).alerts = [.loadAssetsError] ∧
      (run init
        [.maskSettled .small none, .handleFiles [⟨true, 7⟩],
          .imageLoaded 0 ⟨1, 1, [1, 2, 3, 255]⟩, .timeout]).posted =
        [.processImage ⟨1, 1, [1, 2, 3, 255]⟩ ⟨.auto, 1⟩ 7] :=
  ⟨rfl, rfl, rfl⟩

/-! ## Ids of the live sessions -/

theorem updateFirst_noId (X : Nat) (pred : ImageProcessor → Bool)
    (f : ImageProcessor → ImageProcessor) (hf : ∀ p, (f p).id = p.id)
    (l : List ImageProcessor) (h : ∀ p ∈ l, p.id ≠ X) :
    ∀ p ∈ updateFirst pred f l, p.id ≠ X := by
  intro q hq
  rcases mem_updateFirst _ _ _ _ hq with hq | ⟨p, hp, rfl⟩
  · exact h q hq
  · rw [hf]
    exact h p hp

theorem modifyObject_noId (X : Nat) (st : AppState) (ref : Nat)
    (f : ImageProcessor → ImageProcessor) (hf : ∀ p, (f p).id = p.id)
    (h : ∀ p ∈ st.processors, p.id ≠ X) :
    ∀ p ∈ (st.modifyObject ref f).processors, p.id ≠ X :=
  updateFirst_noId X _ f hf st.processors h

theorem processAndRender_noId (X : Nat) (st : AppState) (ref : Nat)
    (h : ∀ p ∈ st.processors, p.id ≠ X) :
    ∀ p ∈ (processAndRender st ref).processors, p.id ≠ X := by
  unfold processAndRender
  split
  · exact h
  · split
    · exact h
    · exact modifyObject_noId X st ref _ (fun _ => rfl) h

theorem processTimeout_noId (X : Nat) (st : AppState) (ref : Nat)
    (h : ∀ p ∈ st.processors, p.id ≠ X) :
    ∀ p ∈ (processTimeout st ref).processors, p.id ≠ X := by
  unfold processTimeout
  split
  · exact h
  · split
    · exact h
    · exact modifyObject_noId X st ref _ (fun _ => rfl) h

theorem foldl_processAndRender_noId (X : Nat) (l : List ImageProcessor) (st : AppState)
    (h : ∀ p ∈ st.processors, p.id ≠ X) :
    ∀ p ∈ (l.foldl (fun s p => processAndRender s p.ref) st).processors, p.id ≠ X := by
  induction l generalizing st with
  | nil => exact h
  | cons q rest ih =>
    rw [List.foldl_cons]
    exact ih _ (processAndRender_noId X st q.ref h)

theorem handleFiles_noId (X : Nat) (st : AppState) (files : List FileEntry)
    (hfiles : files.any (fun file => file.isImage && file.randomId == X) = false)
    (h : ∀ p ∈ st.processors, p.id ≠ X) :
    ∀ p ∈ (handleFiles st files).processors, p.id ≠ X := by
  induction files generalizing st with
  | nil => exact h
  | cons file rest ih =>
    simp only [List.any_cons, Bool.or_eq_false_iff] at hfiles
    unfold handleFiles at ih ⊢
    rw [List.foldl_cons]
    apply ih _ hfiles.2
    split
    · next himage =>
      intro p hp
      simp only [List.mem_append, List.mem_singleton] at hp
      rcases hp with hp | rfl
      · exact h p hp
      · simpa [himage, newImageProcessor] using hfiles.1
    · exact h

theorem step_noId (X : Nat) (st : AppState) (e : Event)
    (he : addsId X [e] = false) (h : ∀ p ∈ st.processors, p.id ≠ X) :
    ∀ p ∈ (step st e).processors, p.id ≠ X := by
  cases e with
  | maskSettled type outcome =>
    show ∀ p ∈ (maskSettled st type outcome).processors, p.id ≠ X
    rw [(maskSettled_rest st type outcome).2.1]
    exact h
  | handleFiles files =>
    simp only [addsId, Bool.or_false] at he
    exact handleFiles_noId X st files he h
  | imageLoaded ref img =>
    simp only [step, imageLoaded]
    split
    · exact h
    · split
      · exact h
      · exact processAndRender_noId X _ ref (modifyObject_noId X st ref _ (fun _ => rfl) h)
  | timeout =>
    simp only [step]
    split
    · exact h
    · exact processTimeout_noId X _ _ h
  | sizeSelectChange ref value =>
    simp only [step, sizeSelectChange]
    split
    · exact h
    · exact processAndRender_noId X _ ref (modifyObject_noId X st ref _ (fun _ => rfl) h)
  | alphaInput ref val =>
    simp only [step, alphaInput]
    split
    · exact h
    · exact processAndRender_noId X _ ref (modifyObject_noId X st ref _ (fun _ => rfl) h)
  | downloadClick ref =>
    simp only [step, download]
    split
    · exact h
    · split
      · exact h
      · exact h
  | removeClick ref =>
    simp only [step, destroy]
    split
    · exact h
    · intro p hp
      exact h p (List.mem_filter.mp hp).1
  | startCompare ref =>
    simp only [step, startCompare]
    split
    · exact h
    · split
      · exact h
      · exact modifyObject_noId X st ref _ (fun _ => rfl) h
  | endCompare ref =>
    simp only [step, endCompare]
    split
    · exact h
    · split
      · exact h
      · exact modifyObject_noId X st ref _ (fun _ => rfl) h
  | logoLoaded img => exact foldl_processAndRender_noId X _ _ h
  | logoOpacityInput value => exact foldl_processAndRender_noId X _ _ h
  | logoScaleInput value => exact foldl_processAndRender_noId X _ _ h
  | clearLogo => exact foldl_processAndRender_noId X _ _ h
  | workerMessage msg =>
    cases msg with
    | processComplete id d =>
      simp only [step]
      rw [onmessage_processComplete]
      exact updateFirst_noId X _ _ (fun p => handleWorkerResult_id _ p d) _ h
    | processError id payload =>
      simp only [step, onmessage]
      split
      · exact updateFirst_noId X (fun p => p.id == id)
          (fun processor => { processor with loadingDisplay := .hidden }) (fun _ => rfl) _ h
      · exact h
    | other => exact h

theorem addsId_cons (X : Nat) (e : Event) (rest : List Event) :
    addsId X (e :: rest) = (addsId X [e] || addsId X rest) := by
  cases e <;> simp [addsId]

theorem run_noId (X : Nat) (events : List Event) (st : AppState)
    (he : addsId X events = false) (h : ∀ p ∈ st.processors, p.id ≠ X) :
    ∀ p ∈ (run st events).processors, p.id ≠ X := by
  induction events generalizing st with
  | nil => exact h
  | cons e rest ih =>
    rw [addsId_cons, Bool.or_eq_false_iff] at he
    exact ih (step st e) he.2 (step_noId X st e he.1 h)

theorem noId_destroy (st : AppState) (this : ImageProcessor)
    (hmem : this ∈ st.processors) (hids : (st.processors.map (fun p => p.id)).Nodup) :
    ∀ p ∈ (destroy st this.ref).processors, p.id ≠ this.id := by
  intro p hp
  rw [destroy_processors st this hmem] at hp
  have hp2 := List.mem_filter.mp hp
  have hne : p ≠ this := by
    intro h
    rw [h] at hp2
    simp at hp2
  exact fun h => hne (List.inj_on_of_nodup_map hids hp2.1 hmem h)

/-- C7: once `destroy` has run on a live session (session ids pairwise
distinct), and whatever events follow that create no session with the same id,
a `PROCESS_COMPLETE` carrying the id of the destroyed session leaves the whole
state as it was, and a `PROCESS_ERROR` carrying it only writes the console
line: `handleWorkerResult` runs on no session, the destroyed one included, no
alert is raised and no remaining session changes. -/
theorem destroy_discards_results (st : AppState) (this : ImageProcessor)
    (hmem : this ∈ st.processors) (hids : (st.processors.map (fun p => p.id)).Nodup)
    (events : List Event) (hfresh : addsId this.id events = false)
    (d : ImageData) (payload : String) :
    this ∉ (destroy st this.ref).processors ∧
      onmessage (run (destroy st this.ref) events) (.processComplete this.id d) =
        run (destroy st this.ref) events ∧
      onmessage (run (destroy st this.ref) events) (.processError this.id payload) =
        { run (destroy st this.ref) events with
          console := (run (destroy st this.ref) events).console ++ [.workerError payload] } := by
  have hno := run_noId this.id events (destroy st this.ref) hfresh (noId_destroy st this hmem hids)
  have hfind : (run (destroy st this.ref) events).processors.find?
      (fun p => p.id == this.id) = none :=
    find?_eq_none_of_forall _ _ (fun p hp => by simpa using hno p hp)
  refine ⟨?_, ?_, ?_⟩
  · rw [destroy_processors st this hmem]
    simp
  · simp only [onmessage, hfind]
  · simp only [onmessage, hfind]

/-- Witness of C7: the session of id 7 among two sessions is destroyed; a
completion for the other session and a new file follow before its results
arrive. -/
theorem destroy_discards_results_witness :
    newImageProcessor 0 7 ∉ (destroy twoSessions (newImageProcessor 0 7).ref).processors ∧
      onmessage
          (run (destroy twoSessions (newImageProcessor 0 7).ref)
            [.workerMessage (.processComplete 9 ⟨1, 1, [9, 9, 9, 255]⟩),
              .handleFiles [⟨true, 11⟩]])
          (.processComplete (newImageProcessor 0 7).id ⟨1, 1, [7, 7, 7, 255]⟩) =
        run (destroy twoSessions (newImageProcessor 0 7).ref)
          [.workerMessage (.processComplete 9 ⟨1, 1, [9, 9, 9, 255]⟩),
            .handleFiles [⟨true, 11⟩]] ∧
      onmessage
          (run (destroy twoSessions (newImageProcessor 0 7).ref)
            [.workerMessage (.processComplete 9 ⟨1, 1, [9, 9, 9, 255]⟩),
              .handleFiles [⟨true, 11⟩]])
          (.processError (newImageProcessor 0 7).id "fault") =
        { run (destroy twoSessions (newImageProcessor 0 7).ref)
            [.workerMessage (.processComplete 9 ⟨1, 1, [9, 9, 9, 255]⟩),
              .handleFiles [⟨true, 11⟩]] with
          console :=
            (run (destroy twoSessions (newImageProcessor 0 7).ref)
              [.workerMessage (.processComplete 9 ⟨1, 1, [9, 9, 9, 255]⟩),
                .handleFiles [⟨true, 11⟩]]).console ++ [.workerError "fault"] } :=
  destroy_discards_results twoSessions (newImageProcessor 0 7)
    (by simp [twoSessions, handleFiles, init]) (by decide)
    [.workerMessage (.processComplete 9 ⟨1, 1, [9, 9, 9, 255]⟩), .handleFiles [⟨true, 11⟩]]
    rfl ⟨1, 1, [7, 7, 7, 255]⟩ "fault"

/-! ## Compositor: when and where the logo is drawn -/

theorem forall₂_updateFirst {α : Type} (pred : α → Bool) (f : α → α) (l : List α) :
    List.Forall₂ (fun p q => q = p ∨ (pred p = true ∧ q = f p)) l (updateFirst pred f l) := by
  induction l with
  | nil => exact List.Forall₂.nil
  | cons a as ih =>
    rw [updateFirst_cons]
    split
    · next ha =>
      refine List.Forall₂.cons (Or.inr ⟨ha, rfl⟩) ?_
      clear ih
      induction as with
      | nil => exact List.Forall₂.nil
      | cons b bs ihb => exact List.Forall₂.cons (Or.inl rfl) ihb
    · exact List.Forall₂.cons (Or.inl rfl) ih

theorem forall₂_same_of_forall {α : Type} (R : α → α → Prop) (hR : ∀ a, R a a) (l : List α) :
    List.Forall₂ R l l := by
  induction l with
  | nil => exact List.Forall₂.nil
  | cons a as ih => exact List.Forall₂.cons (hR a) ih

/-- C12: handling a `PROCESS_ERROR` carrying id `X` leaves the masks, the logo
overlay, the detached processors, the pending timers, the messages posted and
the exports as they were, and keeps the list of processors position by
position: every session stays as it was, except that a session whose id is `X`
may have its loading indicator hidden and nothing else changed; the session
found for id `X`, if there is one, has its loading indicator hidden. -/
theorem onmessage_processError_isolated (st : AppState) (X : Nat) (payload : String) :
    (onmessage st (.processError X payload)).masks = st.masks ∧
      (onmessage st (.processError X payload)).customLogo = st.customLogo ∧
      (onmessage st (.processError X payload)).detached = st.detached ∧
      (onmessage st (.processError X payload)).timers = st.timers ∧
      (onmessage st (.processError X payload)).posted = st.posted ∧
      (onmessage st (.processError X payload)).exported = st.exported ∧
      List.Forall₂
        (fun p q => q = p ∨ (p.id = X ∧ q = { p with loadingDisplay := .hidden }))
        st.processors (onmessage st (.processError X payload)).processors ∧
      (onmessage st (.processError X payload)).processors.find? (fun p => p.id == X) =
        (st.processors.find? (fun p => p.id == X)).map
          (fun p => { p with loadingDisplay := .hidden }) := by
  simp only [onmessage]
  split
  · refine ⟨rfl, rfl, rfl, rfl, rfl, rfl, ?_,
      find?_updateFirst_same (fun p => { p with loadingDisplay := .hidden }) X (fun _ => rfl)
        st.processors⟩
    have h := forall₂_updateFirst (fun p : ImageProcessor => p.id == X)
      (fun processor => { processor with loadingDisplay := .hidden }) st.processors
    refine List.Forall₂.imp ?_ h
    intro p q hpq
    rcases hpq with hpq | ⟨hid, hq⟩
    · exact Or.inl hpq
    · exact Or.inr ⟨by simpa using hid, hq⟩
  · next hnone =>
    refine ⟨rfl, rfl, rfl, rfl, rfl, rfl, ?_, ?_⟩
    · exact forall₂_same_of_forall
        (fun p q : ImageProcessor =>
          q = p ∨ (p.id = X ∧ q = { p with loadingDisplay := .hidden }))
        (fun _ => Or.inl rfl) st.processors
    · have h : st.processors.find? (fun p => p.id == X) = none := hnone
      show st.processors.find? (fun p => p.id == X) = _
      rw [h]
      rfl


/-! ## Export -/

/-- C13 fails on the script: `download` hands the canvas to `toBlob`, not
`processedImageData`. Once the timer of a re-issued job has fired, the canvas
holds the original image while `processedImageData` still holds the previous
result, so a download at that moment, or after the `PROCESS_ERROR` of that
job, exports the original pixels `[1, 2, 3, 255]` and not the processed pixels
`[9, 9, 9, 255]`. -/
theorem download_exports_canvas :
    (run init jobInFlight).processors.map (fun p => p.processedImageData) =
        [some ⟨1, 1, [9, 9, 9, 255], []⟩] ∧
      (run init (jobInFlight ++ [.downloadClick 0])).exported =
        [(0, ⟨1, 1, [1, 2, 3, 255], []⟩)] ∧
      (run init (jobInFlight ++ [.workerMessage (.processError 7 "fault")])).processors.map
          (fun p => p.processedImageData) = [some ⟨1, 1, [9, 9, 9, 255], []⟩] ∧
      (run init
          (jobInFlight ++
            [.workerMessage (.processError 7 "fault"), .downloadClick 0])).exported =
        [(0, ⟨1, 1, [1, 2, 3, 255], []⟩)] :=
  ⟨rfl, rfl, rfl, rfl⟩

/-! ## Jobs posted by the timers -/

theorem map_find?_updateFirst {α β : Type} (pred q : α → Bool) (f : α → α) (k : α → β)
    (hq : ∀ a, q (f a) = q a) (hk : ∀ a, k (f a) = k a) (l : List α) :
    Option.map k ((updateFirst pred f l).find? q) = Option.map k (l.find? q) := by
  induction l with
  | nil => rfl
  | cons a as ih =>
    rw [updateFirst_cons]
    split
    · simp only [List.find?_cons, hq]
      split
      · simp [hk]
      · rfl
    · simp only [List.find?_cons]
      split
      · rfl
      · exact ih

theorem map_object?_modifyObject {β : Type} (st : AppState) (ref r : Nat)
    (f : ImageProcessor → ImageProcessor) (k : ImageProcessor → β)
    (hf : ∀ p, (f p).ref = p.ref) (hk : ∀ p, k (f p) = k p) :
    Option.map k ((st.modifyObject ref f).object? r) = Option.map k (st.object? r) := by
  have hq : ∀ p : ImageProcessor, ((f p).ref == r) = (p.ref == r) := fun p => by rw [hf]
  have h1 := map_find?_updateFirst (fun p => p.ref == ref) (fun p => p.ref == r) f k hq hk
    st.processors
  have h2 := map_find?_updateFirst (fun p => p.ref == ref) (fun p => p.ref == r) f k hq hk
    st.detached
  simp only [AppState.object?, AppState.modifyObject, List.find?_append]
  cases ha : (updateFirst (fun p => p.ref == ref) f st.processors).find? (fun p => p.ref == r)
    <;> cases hb : st.processors.find? (fun p => p.ref == r)
    <;> simp only [ha, hb, Option.map_none', Option.map_some', Option.none_or, Option.or_some,
      reduceCtorEq] at h1 ⊢
  · exact h2
  · exact h1

theorem jobAt_modifyObject (st : AppState) (ref r : Nat)
    (f : ImageProcessor → ImageProcessor)
    (hf : ∀ p, (f p).ref = p.ref) (hj : ∀ p, jobOf (f p) = jobOf p) :
    jobAt (st.modifyObject ref f) r = jobAt st r := by
  have h := map_object?_modifyObject st ref r f jobOf hf hj
  unfold jobAt
  cases ha : (st.modifyObject ref f).object? r <;> cases hb : st.object? r <;>
    simp only [ha, hb, Option.map_none', Option.map_some', Option.some.injEq,
      reduceCtorEq] at h ⊢
  exact h

theorem processAndRender_jobAt (st : AppState) (ref r : Nat) :
    jobAt (processAndRender st ref) r = jobAt st r := by
  unfold processAndRender
  split
  · rfl
  · split
    · rfl
    · exact jobAt_modifyObject st ref r _ (fun _ => rfl) (fun _ => rfl)

theorem processAndRender_timers (st : AppState) (ref : Nat) :
    (processAndRender st ref).timers =
      st.timers ++ (if (jobAt st ref).isSome then [ref] else []) := by
  unfold processAndRender jobAt
  cases h : st.object? ref with
  | none => simp
  | some this =>
    cases himg : this.originalImage with
    | none => simp [jobOf, himg]
    | some img => simp [jobOf, himg, AppState.modifyObject]

theorem foldl_processAndRender_jobAt (l : List ImageProcessor) (st : AppState) (r : Nat) :
    jobAt (l.foldl (fun s p => processAndRender s p.ref) st) r = jobAt st r := by
  induction l generalizing st with
  | nil => rfl
  | cons p rest ih => rw [List.foldl_cons, ih, processAndRender_jobAt]

theorem foldl_processAndRender_timers (l : List ImageProcessor) (st : AppState) :
    (l.foldl (fun s p => processAndRender s p.ref) st).timers =
      st.timers ++ (l.map (fun p => p.ref)).filter (fun r => (jobAt st r).isSome) := by
  induction l generalizing st with
  | nil => simp
  | cons p rest ih =>
    rw [List.foldl_cons, ih, processAndRender_timers]
    have hfun : (fun r => (jobAt (processAndRender st p.ref) r).isSome) =
        (fun r => (jobAt st r).isSome) := by
      funext r
      rw [processAndRender_jobAt]
    rw [hfun, List.map_cons, List.filter_cons]
    split <;> simp

theorem processTimeout_posted_eq (st : AppState) (ref : Nat) :
    (processTimeout st ref).posted = st.posted ++ (jobAt st ref).toList := by
  unfold processTimeout jobAt
  cases h : st.object? ref with
  | none => simp
  | some this =>
    cases himg : this.originalImage with
    | none => simp [jobOf, himg]
    | some img => simp [jobOf, himg]

theorem processTimeout_jobAt (st : AppState) (ref r : Nat) :
    jobAt (processTimeout st ref) r = jobAt st r := by
  unfold processTimeout
  split
  · rfl
  · split
    · rfl
    · exact jobAt_modifyObject st ref r _ (fun _ => rfl) (fun _ => rfl)

theorem processTimeout_timers (st : AppState) (ref : Nat) :
    (processTimeout st ref).timers = st.timers := by
  unfold processTimeout
  split
  · rfl
  · split <;> rfl

theorem run_timeouts_posted (ts : List Nat) (st : AppState) (h : st.timers = ts) :
    (run st (List.replicate ts.length .timeout)).posted =
      st.posted ++ ts.filterMap (jobAt st) := by
  induction ts generalizing st with
  | nil => simp [run]
  | cons r rest ih =>
    have hstep : step st .timeout = processTimeout { st with timers := rest } r := by
      simp only [step, h]
    have hrun : run st (List.replicate (r :: rest).length .timeout) =
        run (step st .timeout) (List.replicate rest.length .timeout) := rfl
    rw [hrun, hstep, ih _ (processTimeout_timers _ r), processTimeout_posted_eq]
    have hfun : jobAt (processTimeout { st with timers := rest } r) = jobAt st := by
      funext r2
      rw [processTimeout_jobAt]
      rfl
    have hr : jobAt { st with timers := rest } r = jobAt st r := rfl
    rw [hfun, hr, List.filterMap_cons]
    cases jobAt st r <;> simp

theorem find?_ref_of_nodup (l : List ImageProcessor)
    (hnd : (l.map (fun p => p.ref)).Nodup) (p : ImageProcessor) (hp : p ∈ l) :
    l.find? (fun q => q.ref == p.ref) = some p := by
  cases h : l.find? (fun q => q.ref == p.ref) with
  | none =>
    rw [List.find?_eq_none] at h
    exact absurd (by simp) (h p hp)
  | some q =>
    have hq : q ∈ l := List.mem_of_find?_eq_some h
    have hqref : q.ref = p.ref := by simpa using List.find?_some h
    rw [List.inj_on_of_nodup_map hnd hq hp hqref]

theorem jobAt_of_mem (st : AppState) (hrefs : RefsOk st) (p : ImageProcessor)
    (hp : p ∈ st.processors) : jobAt st p.ref = jobOf p := by
  have hnd : ((st.processors ++ st.detached).map (fun p => p.ref)).Nodup := by
    rw [List.map_append]
    exact hrefs.1
  unfold jobAt AppState.object?
  rw [find?_ref_of_nodup _ hnd p (List.mem_append_left _ hp)]
  rfl

theorem filter_refs_loaded (st : AppState) (l : List ImageProcessor)
    (hl : ∀ p ∈ l, jobAt st p.ref = jobOf p) :
    (l.map (fun p => p.ref)).filter (fun r => (jobAt st r).isSome) =
      (l.filter (fun p => p.originalImage.isSome)).map (fun p => p.ref) := by
  induction l with
  | nil => rfl
  | cons p rest ih =>
    have hp := hl p (List.mem_cons_self p rest)
    have ih2 := ih (fun q hq => hl q (List.mem_cons_of_mem p hq))
    rw [List.map_cons, List.filter_cons, List.filter_cons, hp, ih2]
    cases himg : p.originalImage <;> simp [jobOf, himg]

theorem filterMap_refs_loaded (st : AppState) (l : List ImageProcessor)
    (hl : ∀ p ∈ l, jobAt st p.ref = jobOf p) :
    ((l.filter (fun p => p.originalImage.isSome)).map (fun p => p.ref)).filterMap (jobAt st) =
      l.filterMap jobOf := by
  induction l with
  | nil => rfl
  | cons p rest ih =>
    have hp := hl p (List.mem_cons_self p rest)
    have ih2 := ih (fun q hq => hl q (List.mem_cons_of_mem p hq))
    cases himg : p.originalImage with
    | none =>
      have hj : jobOf p = none := by simp [jobOf, himg]
      rw [List.filter_cons, List.filterMap_cons, hj]
      simpa [himg] using ih2
    | some img =>
      have hj : jobOf p = some (.processImage ⟨img.width, img.height, img.data⟩ p.config p.id) := by
        simp [jobOf, himg]
      rw [List.filter_cons, List.filterMap_cons, hj]
      simp only [himg, Option.isSome_some, if_true, List.map_cons, List.filterMap_cons, hp, hj]
      rw [ih2]

/-! ## Object identities in reachable states -/

theorem map_updateFirst {α β : Type} (pred : α → Bool) (f : α → α) (k : α → β)
    (hk : ∀ a, k (f a) = k a) (l : List α) :
    (updateFirst pred f l).map k = l.map k := by
  induction l with
  | nil => rfl
  | cons a as ih =>
    rw [updateFirst_cons]
    split
    · simp [hk]
    · simp [ih]

theorem refsOk_of_refsView (s t : AppState) (h : refsView t = refsView s) (hs : RefsOk s) :
    RefsOk t := by
  unfold RefsOk at hs ⊢
  rw [h]
  exact hs

theorem modifyObject_refsView (st : AppState) (ref : Nat)
    (f : ImageProcessor → ImageProcessor) (hf : ∀ p, (f p).ref = p.ref) :
    refsView (st.modifyObject ref f) = refsView st := by
  simp only [refsView, AppState.modifyObject]
  rw [map_updateFirst _ f (fun p => p.ref) hf, map_updateFirst _ f (fun p => p.ref) hf]

theorem processAndRender_refsView (st : AppState) (ref : Nat) :
    refsView (processAndRender st ref) = refsView st := by
  unfold processAndRender
  split
  · rfl
  · split
    · rfl
    · exact modifyObject_refsView st ref _ (fun _ => rfl)

theorem processTimeout_refsView (st : AppState) (ref : Nat) :
    refsView (processTimeout st ref) = refsView st := by
  unfold processTimeout
  split
  · rfl
  · split
    · rfl
    · exact modifyObject_refsView st ref _ (fun _ => rfl)

theorem foldl_processAndRender_refsView (l : List ImageProcessor) (st : AppState) :
    refsView (l.foldl (fun s p => processAndRender s p.ref) st) = refsView st := by
  induction l generalizing st with
  | nil => rfl
  | cons p rest ih => rw [List.foldl_cons, ih, processAndRender_refsView]

theorem applyCustomLogo_ref (customLogo : CustomLogo) (this : ImageProcessor) :
    (applyCustomLogo customLogo this).ref = this.ref := by
  unfold applyCustomLogo
  split <;> rfl

theorem handleWorkerResult_ref (customLogo : CustomLogo) (this : ImageProcessor)
    (d : ImageData) : (handleWorkerResult customLogo this d).ref = this.ref := by
  simp only [handleWorkerResult]
  exact applyCustomLogo_ref customLogo _

theorem onmessage_refsView (st : AppState) (msg : WorkerResponse) :
    refsView (onmessage st msg) = refsView st := by
  cases msg with
  | processComplete id d =>
    rw [onmessage_processComplete]
    simp only [refsView]
    rw [map_updateFirst _ _ (fun p => p.ref) (fun p => handleWorkerResult_ref _ p d)]
  | processError id payload =>
    simp only [onmessage]
    split
    · simp only [refsView]
      rw [map_updateFirst (fun p => p.id == id)
        (fun processor : ImageProcessor => { processor with loadingDisplay := .hidden })
        (fun p => p.ref) (fun _ => rfl)]
    · rfl
  | other => rfl

theorem maskSettled_refsView (st : AppState) (type : MaskType) (outcome : Option Image) :
    refsView (maskSettled st type outcome) = refsView st := by
  have hinit : ∀ s : AppState, refsView (initAwait s) = refsView s := by
    intro s
    unfold initAwait
    split
    · rfl
    · split
      · rfl
      · split <;> rfl
  have hset : ∀ (s : AppState) (p : PromiseState),
      refsView (s.setLoadState type p) = refsView s := by
    intro s p
    cases type <;> rfl
  unfold maskSettled
  split
  · cases outcome with
    | none => rw [hinit, hset]
    | some img =>
      rw [hinit, hset]
      rfl
  · rfl

theorem handleFiles_refsOk (st : AppState) (files : List FileEntry) (h : RefsOk st) :
    RefsOk (handleFiles st files) := by
  induction files generalizing st with
  | nil => exact h
  | cons file rest ih =>
    unfold handleFiles at ih ⊢
    rw [List.foldl_cons]
    apply ih
    split
    · obtain ⟨hnd, hlt⟩ := h
      simp only [refsView] at hnd hlt
      have hfresh : st.nextRef ∉
          st.processors.map (fun p => p.ref) ++ st.detached.map (fun p => p.ref) :=
        fun hmem => lt_irrefl _ (hlt _ hmem)
      have hshape : (st.processors ++ [newImageProcessor st.nextRef file.randomId]).map
            (fun p => p.ref) ++ st.detached.map (fun p => p.ref) =
          st.processors.map (fun p => p.ref) ++
            st.nextRef :: st.detached.map (fun p => p.ref) := by
        simp [newImageProcessor]
      refine ⟨?_, ?_⟩
      · show ((st.processors ++ [newImageProcessor st.nextRef file.randomId]).map
            (fun p => p.ref) ++ st.detached.map (fun p => p.ref)).Nodup
        rw [hshape, List.perm_middle.nodup_iff, List.nodup_cons]
        exact ⟨hfresh, hnd⟩
      · show ∀ r ∈ (st.processors ++ [newImageProcessor st.nextRef file.randomId]).map
            (fun p => p.ref) ++ st.detached.map (fun p => p.ref), r < st.nextRef + 1
        rw [hshape]
        intro r hr
        rcases List.mem_append.mp hr with hr | hr
        · exact Nat.lt_succ_of_lt (hlt r (List.mem_append_left _ hr))
        · rcases List.mem_cons.mp hr with rfl | hr
          · exact Nat.lt_succ_self _
          · exact Nat.lt_succ_of_lt (hlt r (List.mem_append_right _ hr))
    · exact h

theorem destroy_refsOk (st : AppState) (ref : Nat) (h : RefsOk st) :
    RefsOk (destroy st ref) := by
  unfold destroy
  split
  · exact h
  · next this hthis =>
    obtain ⟨hnd, hlt⟩ := h
    simp only [refsView] at hnd hlt
    have hmem : this ∈ st.processors := List.mem_of_find?_eq_some hthis
    have hthisP : this.ref ∈ st.processors.map (fun p => p.ref) :=
      List.mem_map.mpr ⟨this, hmem, rfl⟩
    have hdisj := (List.nodup_append.mp hnd).2.2
    have hsub : ((st.processors.filter (fun p => p.ref != this.ref)).map (fun p => p.ref) ++
        st.detached.map (fun p => p.ref)).Sublist
        (st.processors.map (fun p => p.ref) ++ st.detached.map (fun p => p.ref)) :=
      List.Sublist.append (List.Sublist.map _ (List.filter_sublist _)) (List.Sublist.refl _)
    have hnotin : this.ref ∉
        (st.processors.filter (fun p => p.ref != this.ref)).map (fun p => p.ref) ++
          st.detached.map (fun p => p.ref) := by
      intro hin
      rcases List.mem_append.mp hin with hin | hin
      · obtain ⟨q, hq, hqref⟩ := List.mem_map.mp hin
        have := (List.mem_filter.mp hq).2
        simp [hqref] at this
      · exact hdisj hthisP hin
    have hshape : (st.processors.filter (fun p => p.ref != this.ref)).map (fun p => p.ref) ++
          (st.detached ++ [this]).map (fun p => p.ref) =
        ((st.processors.filter (fun p => p.ref != this.ref)).map (fun p => p.ref) ++
          st.detached.map (fun p => p.ref)) ++ [this.ref] := by
      simp
    refine ⟨?_, ?_⟩
    · show ((st.processors.filter (fun p => p.ref != this.ref)).map (fun p => p.ref) ++
          (st.detached ++ [this]).map (fun p => p.ref)).Nodup
      rw [hshape, (List.perm_append_singleton _ _).nodup_iff, List.nodup_cons]
      exact ⟨hnotin, hnd.sublist hsub⟩
    · show ∀ r ∈ (st.processors.filter (fun p => p.ref != this.ref)).map (fun p => p.ref) ++
          (st.detached ++ [this]).map (fun p => p.ref), r < st.nextRef
      rw [hshape]
      intro r hr
      rcases List.mem_append.mp hr with hr | hr
      · exact hlt r (hsub.subset hr)
      · rw [List.mem_singleton] at hr
        rw [hr]
        exact hlt _ (List.mem_append_left _ hthisP)

theorem step_refsOk (st : AppState) (e : Event) (h : RefsOk st) : RefsOk (step st e) := by
  cases e with
  | maskSettled type outcome =>
    exact refsOk_of_refsView st _ (maskSettled_refsView st type outcome) h
  | handleFiles files => exact handleFiles_refsOk st files h
  | imageLoaded ref img =>
    apply refsOk_of_refsView st _ _ h
    simp only [step, imageLoaded]
    split
    · rfl
    · split
      · rfl
      · exact (processAndRender_refsView _ _).trans
          (modifyObject_refsView st ref _ (fun _ => rfl))
  | timeout =>
    apply refsOk_of_refsView st _ _ h
    simp only [step]
    split
    · rfl
    · rw [processTimeout_refsView]
      rfl
  | sizeSelectChange ref value =>
    apply refsOk_of_refsView st _ _ h
    simp only [step, sizeSelectChange]
    split
    · rfl
    · exact (processAndRender_refsView _ _).trans
        (modifyObject_refsView st ref _ (fun _ => rfl))
  | alphaInput ref val =>
    apply refsOk_of_refsView st _ _ h
    simp only [step, alphaInput]
    split
    · rfl
    · exact (processAndRender_refsView _ _).trans
        (modifyObject_refsView st ref _ (fun _ => rfl))
  | downloadClick ref =>
    apply refsOk_of_refsView st _ _ h
    simp only [step, download]
    split
    · rfl
    · split <;> rfl
  | removeClick ref => exact destroy_refsOk st ref h
  | startCompare ref =>
    apply refsOk_of_refsView st _ _ h
    simp only [step, startCompare]
    split
    · rfl
    · split
      · rfl
      · exact modifyObject_refsView st ref _ (fun _ => rfl)
  | endCompare ref =>
    apply refsOk_of_refsView st _ _ h
    simp only [step, endCompare]
    split
    · rfl
    · split
      · rfl
      · exact modifyObject_refsView st ref _ (fun _ => rfl)
  | logoLoaded img =>
    exact refsOk_of_refsView st _ (foldl_processAndRender_refsView _ _) h
  | logoOpacityInput value =>
    exact refsOk_of_refsView st _ (foldl_processAndRender_refsView _ _) h
  | logoScaleInput value =>
    exact refsOk_of_refsView st _ (foldl_processAndRender_refsView _ _) h
  | clearLogo =>
    exact refsOk_of_refsView st _ (foldl_processAndRender_refsView _ _) h
  | workerMessage msg => exact refsOk_of_refsView st _ (onmessage_refsView st msg) h

theorem run_refsOk (events : List Event) (st : AppState) (h : RefsOk st) :
    RefsOk (run st events) := by
  induction events generalizing st with
  | nil => exact h
  | cons e rest ih => exact ih (step st e) (step_refsOk st e h)

theorem init_refsOk : RefsOk init :=
  ⟨List.nodup_nil, fun r hr => absurd hr (List.not_mem_nil r)⟩

/-! ## Reprocessing after a change of the logo overlay -/

theorem reprocessAllImages_jobs (st : AppState) (hrefs : RefsOk st) :
    (reprocessAllImages st).timers =
        st.timers ++
          (st.processors.filter (fun p => p.originalImage.isSome)).map (fun p => p.ref) ∧
      (reprocessAllImages st).posted = st.posted ∧
      (run (reprocessAllImages st)
          (List.replicate (reprocessAllImages st).timers.length .timeout)).posted =
        st.posted ++ st.timers.filterMap (jobAt st) ++ st.processors.filterMap jobOf := by
  have hl : ∀ p ∈ st.processors, jobAt st p.ref = jobOf p :=
    fun p hp => jobAt_of_mem st hrefs p hp
  have htimers : (reprocessAllImages st).timers =
      st.timers ++
        (st.processors.filter (fun p => p.originalImage.isSome)).map (fun p => p.ref) := by
    unfold reprocessAllImages
    rw [foldl_processAndRender_timers, filter_refs_loaded st st.processors hl]
  have hposted : (reprocessAllImages st).posted = st.posted :=
    foldl_processAndRender_posted st.processors st
  have hjob : jobAt (reprocessAllImages st) = jobAt st := by
    funext r
    exact foldl_processAndRender_jobAt st.processors st r
  refine ⟨htimers, hposted, ?_⟩
  rw [run_timeouts_posted (reprocessAllImages st).timers (reprocessAllImages st) rfl, hposted,
    hjob, htimers, List.filterMap_append, filterMap_refs_loaded st st.processors hl,
    List.append_assoc]

/-- C14: in every reachable state, a change of the logo overlay (a logo image
loaded, the opacity or the scale changed, the logo cleared) arms one timer of
`processAndRender` for every live session whose image is loaded, in the order of
the list, and none for the sessions whose image is not loaded; it posts nothing
by itself. Once the pending timers have fired, the messages posted are those of
the timers that were already pending, followed by one `PROCESS_IMAGE` message
for every live session whose image is loaded, carrying the id and the config of
that session. -/
theorem logo_change_reissues (events : List Event) (e : Event)
    (he : e.isLogoChange = true) :
    (step (run init events) e).timers =
        (run init events).timers ++
          ((run init events).processors.filter (fun p => p.originalImage.isSome)).map
            (fun p => p.ref) ∧
      (step (run init events) e).posted = (run init events).posted ∧
      (run (step (run init events) e)
          (List.replicate (step (run init events) e).timers.length .timeout)).posted =
        (run init events).posted ++
          (run init events).timers.filterMap (jobAt (run init events)) ++
          (run init events).processors.filterMap jobOf := by
  have hrefs : RefsOk (run init events) := run_refsOk events init init_refsOk
  cases e with
  | logoLoaded img =>
    exact reprocessAllImages_jobs
      { run init events with
        customLogo := { (run init events).customLogo with image := some img } } hrefs
  | logoOpacityInput value =>
    exact reprocessAllImages_jobs
      { run init events with
        customLogo := { (run init events).customLogo with opacity := (value : ℚ) / 100 } } hrefs
  | logoScaleInput value =>
    exact reprocessAllImages_jobs
      { run init events with
        customLogo := { (run init events).customLogo with scale := (value : ℚ) / 100 } } hrefs
  | clearLogo =>
    exact reprocessAllImages_jobs
      { run init events with
        customLogo := { image := none, opacity := 8 / 10, scale := 1 } } hrefs
  | _ => simp [Event.isLogoChange] at he

/-- Witness of C14: the opacity is changed while the session of id 7 has its
image and the session of id 9 has not. -/
theorem logo_change_reissues_witness :
    (step (run init mixedSessions) (.logoOpacityInput 50)).timers =
        (run init mixedSessions).timers ++
          ((run init mixedSessions).processors.filter (fun p => p.originalImage.isSome)).map
            (fun p => p.ref) ∧
      (step (run init mixedSessions) (.logoOpacityInput 50)).posted =
        (run init mixedSessions).posted ∧
      (run (step (run init mixedSessions) (.logoOpacityInput 50))
          (List.replicate (step (run init mixedSessions) (.logoOpacityInput 50)).timers.length
            .timeout)).posted =
        (run init mixedSessions).posted ++
          (run init mixedSessions).timers.filterMap (jobAt (run init mixedSessions)) ++
          (run init mixedSessions).processors.filterMap jobOf :=
  logo_change_reissues mixedSessions (.logoOpacityInput 50) rfl


end GeminiWatermark
